import Mathlib

/-!
Verification of the streaming AI pipeline, structured question extraction,
quiz state machine and settings resolution of the Obsidian study-tools plugin.

The TypeScript sources are shallowly embedded: JSON values are modelled by an
inductive type, `JSON.parse` is an oracle parameter of type
`String → Option Json` (parse failure = `none`), JavaScript truthiness and
string coercion are modelled explicitly, and the stateful streaming loops
become folds over the list of decoded body chunks with an explicit index at
which the cooperative abort signal is first observed.
-/

namespace LjoveTools

/-- Model of a JavaScript JSON value (numbers restricted to integers). -/
inductive Json where
  | null : Json
  | bool (b : Bool) : Json
  | num (n : Int) : Json
  | str (s : String) : Json
  | arr (elems : List Json) : Json
  | obj (fields : List (String × Json)) : Json
deriving Repr

/-- Field lookup where the last binding wins, matching `JSON.parse`
duplicate-key behaviour. -/
def lookupLast : List (String × Json) → String → Option Json
  | [], _ => none
  | (k, v) :: rest, key =>
    match lookupLast rest key with
    | some r => some r
    | none => if k = key then some v else none

/-- Property access `v.key`; `none` models JavaScript `undefined`. -/
def Json.getField : Json → String → Option Json
  | .obj fields, key => lookupLast fields key
  | _, _ => none

/-- Numeric index access `v[i]` (arrays by position, objects by the string key,
strings by character). -/
def Json.index : Json → Nat → Option Json
  | .arr xs, i => xs[i]?
  | .obj fields, i => lookupLast fields (toString i)
  | .str s, i => (s.data[i]?).map (fun c => Json.str (String.mk [c]))
  | _, _ => none

/-- JavaScript truthiness of a possibly-undefined JSON value. -/
def jsTruthy : Option Json → Bool
  | none => false
  | some .null => false
  | some (.bool b) => b
  | some (.num n) => n != 0
  | some (.str s) => s != ""
  | some (.arr _) => true
  | some (.obj _) => true

/-- Whether a JSON value is `null`. -/
def Json.isNull : Json → Bool
  | .null => true
  | _ => false

/-- JavaScript string coercion `String(v)` with an explicit nesting-depth
bound (a technical device keeping the recursion structural; it is initialized
to a sound bound and never reached): array elements are joined with commas,
null elements rendering as the empty string inside `Array.prototype.join`. -/
def jsToStringFuel : Nat → Json → String
  | _, .null => "null"
  | _, .bool b => if b then "true" else "false"
  | _, .num n => toString n
  | _, .str s => s
  | _, .obj _ => "[object Object]"
  | fuel, .arr xs =>
    match fuel with
    | 0 => ""
    | f + 1 =>
      String.intercalate "," (xs.map (fun j =>
        if j.isNull then "" else jsToStringFuel f j))

mutual

/-- Nesting depth of a JSON value, a sound fuel bound for `jsToStringFuel`. -/
def jsFuelBound : Json → Nat
  | .arr xs => jsListFuelBound xs + 1
  | _ => 1

/-- Maximal nesting depth over a list of JSON values. -/
def jsListFuelBound : List Json → Nat
  | [] => 0
  | j :: js => max (jsFuelBound j) (jsListFuelBound js)

end

/-- JavaScript string coercion `String(v)`. -/
def jsToString (j : Json) : String := jsToStringFuel (jsFuelBound j) j

/-- JavaScript `a || b` on possibly-undefined JSON values. -/
def jsOr (a b : Option Json) : Option Json := if jsTruthy a then a else b

/-! ### Settings and model catalog (`types.ts`) -/

/-- `CustomModel` from `types.ts`. -/
structure CustomModel where
  id : String
  name : String
  provider : String
deriving Repr, DecidableEq

/-- Fields of `LjoveSToolsSettings` from `types.ts` that the AI service reads. -/
structure LjoveSToolsSettings where
  provider : String
  geminiApiKey : String
  openaiApiKey : String
  deepseekApiKey : String
  model : String
  customModels : List CustomModel
deriving Repr, DecidableEq

/-- One entry of the built-in model catalog. -/
structure ModelInfo where
  id : String
  name : String
  provider : String
deriving Repr, DecidableEq

/-- `AVAILABLE_MODELS` from `types.ts`. -/
def AVAILABLE_MODELS : List ModelInfo := [
  ⟨"gemini-2.5-flash", "Gemini 2.5 Flash", "gemini"⟩,
  ⟨"gemini-2.0-flash", "Gemini 2.0 Flash (Standard)", "gemini"⟩,
  ⟨"gpt-4.1-2025-04-14", "GPT-4.1", "openai"⟩,
  ⟨"gpt-4.1-mini-2025-04-14", "GPT-4.1 Mini", "openai"⟩,
  ⟨"o4-mini-2025-04-16", "o4-mini", "openai"⟩,
  ⟨"deepseek-chat", "DeepSeek-V3-0324", "deepseek"⟩]

namespace AIService

/-- `AIService.getModelProvider`: looks the selected model up in the built-in
catalog and falls back to gemini via `selectedModel?.provider || 'gemini'`. -/
def getModelProvider (settings : LjoveSToolsSettings) : String :=
  match AVAILABLE_MODELS.find? (fun m => m.id == settings.model) with
  | some m => if m.provider = "" then "gemini" else m.provider
  | none => "gemini"

/-- `AIService.getCurrentApiKey`: recomputes the provider by catalog lookup and
switches on it to pick the stored key. -/
def getCurrentApiKey (settings : LjoveSToolsSettings) : String :=
  let provider :=
    match AVAILABLE_MODELS.find? (fun m => m.id == settings.model) with
    | some m => if m.provider = "" then "gemini" else m.provider
    | none => "gemini"
  match provider with
  | "openai" => settings.openaiApiKey
  | "deepseek" => settings.deepseekApiKey
  | _ => settings.geminiApiKey

/-- Endpoint selected by the `switch (provider)` in `callAI`. -/
inductive Endpoint where
  | openai
  | deepseek
  | gemini
deriving Repr, DecidableEq

/-- Destination and model id of the outbound request built by `callAI`. -/
structure RequestDesc where
  endpoint : Endpoint
  model : String
deriving Repr, DecidableEq

/-- Pre-network phase of `AIService.callAI`: the `switch (provider)` picks the
endpoint from the `provider` argument alone and embeds `settings.model` in the
request body (or the gemini URL); the source performs no provider/model
consistency validation before dispatch, so this phase never fails. -/
def callAIRequest (model provider : String) : Except String RequestDesc :=
  match provider with
  | "openai" => .ok ⟨.openai, model⟩
  | "deepseek" => .ok ⟨.deepseek, model⟩
  | _ => .ok ⟨.gemini, model⟩

/-! ### The OpenAI/DeepSeek streaming path of `streamAI` -/

/-- `parsed.choices?.[0]?.delta?.content` with optional chaining. -/
def deltaContent (parsed : Json) : Option Json :=
  (((parsed.getField "choices").bind (fun c => c.index 0)).bind
    (fun c => c.getField "delta")).bind (fun d => d.getField "content")

/-- Splitting on a separator character, with JavaScript
`String.prototype.split` semantics (empty fragments kept, including trailing
ones); lines are handled at the character-list level. -/
def splitOnChar (sep : Char) : List Char → List (List Char)
  | [] => [[]]
  | c :: cs =>
    if c = sep then [] :: splitOnChar sep cs
    else
      match splitOnChar sep cs with
      | [] => [[c]]
      | l :: ls => (c :: l) :: ls

/-- Effect of one decoded line of an OpenAI/DeepSeek SSE body in `streamAI`:
`some c` means `onChunk` fires exactly once with `c` and `fullResponse` grows
by `c`; `none` means the line is skipped. The line is a character list; the
checks are `line.startsWith('data: ')`, `line.slice(6)` and the comparison
with the `[DONE]` sentinel. -/
def sseLineContent (parse : String → Option Json) (line : List Char) : Option String :=
  if "data: ".data.isPrefixOf line then
    let data := line.drop 6
    if data = "[DONE]".data then none
    else
      match parse (String.mk data) with
      | none => none
      | some parsed =>
        let content := deltaContent parsed
        if jsTruthy content then content.map jsToString else none
  else none

/-- Accumulator of `streamAI`: the `fullResponse` string plus the ordered log
of `onChunk` invocations. -/
structure StreamAcc where
  fullResponse : String := ""
  emitted : List String := []
deriving Repr, DecidableEq

/-- Inner `for (const line of lines)` body of `streamAI`. -/
def processLine (parse : String → Option Json) (acc : StreamAcc) (line : List Char) :
    StreamAcc :=
  match sseLineContent parse line with
  | some c => ⟨acc.fullResponse ++ c, acc.emitted ++ [c]⟩
  | none => acc

/-- Processing of one decoded body chunk: split on newline and handle each
line in order. -/
def processChunk (parse : String → Option Json) (acc : StreamAcc) (chunk : String) :
    StreamAcc :=
  (splitOnChar '\n' chunk.data).foldl (processLine parse) acc

/-- Whether the abort signal has fired when loop iteration body `i` runs
(`abortedAt = some j` means the signal fires while the loop awaits item `j`
and stays set; `none` means it never fires). -/
def abortSeen (abortedAt : Option Nat) (i : Nat) : Bool :=
  match abortedAt with
  | some j => decide (j ≤ i)
  | none => false

/-- Outcome of one run of the OpenAI/DeepSeek streaming path: the `onChunk`
invocation log and the text accumulated so far (side effects and local state
at the moment the run ends), plus whether the returned promise rejects.
`rejected = true` models the AbortError path: the source wires
`abortController?.signal` into `fetch` (AIService.ts lines 174 and 191), so
an `abort()` fired while a `reader.read()` is pending rejects that read, and
the catch rethrows; the caller then never receives `fullResponse`. -/
structure StreamRun where
  fullResponse : String := ""
  emitted : List String := []
  rejected : Bool := false
deriving Repr, DecidableEq

/-- The OpenAI/DeepSeek streaming path of `AIService.streamAI`, as a function
of the decoded body chunks in arrival order and of the read index (if any)
during whose pending `reader.read()` the abort signal fires. Because the only
suspension point of the read loop is the pending read itself, and the abort
signal is wired into `fetch`, an abort fired after `j` chunk reads have
resolved (with `j` at most the chunk count, the final read being the one that
reports `done`) rejects the pending read with an AbortError that the catch
rethrows: the first `j` chunks have been processed and emitted via `onChunk`,
no further `onChunk` calls occur, and the promise rejects. The cooperative
`signal.aborted` check at the top of the loop can never observe the signal on
this path. With no abort, or an abort after the final read has resolved, the
loop completes and `fullResponse` is returned. -/
def streamAI (parse : String → Option Json) (abortedAt : Option Nat)
    (chunks : List String) : StreamRun :=
  match abortedAt with
  | some j =>
    if j ≤ chunks.length then
      let acc := (chunks.take j).foldl (processChunk parse) {}
      { fullResponse := acc.fullResponse, emitted := acc.emitted, rejected := true }
    else
      let acc := chunks.foldl (processChunk parse) {}
      { fullResponse := acc.fullResponse, emitted := acc.emitted, rejected := false }
  | none =>
    let acc := chunks.foldl (processChunk parse) {}
    { fullResponse := acc.fullResponse, emitted := acc.emitted, rejected := false }

/-! ### Gemini response parsing -/

/-- Contribution of one part: `part.text` when `part` is truthy and `text` is
a string, nothing otherwise. -/
def geminiPartText (part : Json) : String :=
  if jsTruthy (some part) then
    match part.getField "text" with
    | some (.str s) => s
    | _ => ""
  else ""

/-- The parts array of a candidate when `candidate.content` is truthy and
`content.parts` is an array; `none` means the candidate is skipped via
`continue`. -/
def candidateParts (candidate : Json) : Option (List Json) :=
  let content := candidate.getField "content"
  if jsTruthy content then
    match content.bind (fun c => c.getField "parts") with
    | some (.arr parts) => some parts
    | _ => none
  else none

/-- The candidate/part concatenation loop shared verbatim by
`extractTextFromGeminiChunk` and `extractTextFromGeminiResponse`. -/
def geminiConcat (candidates : List Json) : String :=
  candidates.foldl (fun acc cand =>
    match candidateParts cand with
    | some parts => parts.foldl (fun a p => a ++ geminiPartText p) acc
    | none => acc) ""

/-- `AIService.extractTextFromGeminiChunk`: yields the empty string both when
`candidates` is missing and when no part contributes text. -/
def extractTextFromGeminiChunk (chunk : Json) : String :=
  match chunk.getField "candidates" with
  | some (.arr candidates) => geminiConcat candidates
  | _ => ""

/-- `AIService.extractTextFromGeminiResponse`: throws when `candidates` is
missing and when the concatenated text is empty. -/
def extractTextFromGeminiResponse (data : Json) : Except String String :=
  match data.getField "candidates" with
  | some (.arr candidates) =>
    let textContent := geminiConcat candidates
    if textContent = "" then
      .error "Invalid response format from Gemini API: no text content found"
    else .ok textContent
  | _ => .error "Invalid response format from Gemini API: no candidates"

/-- Emission of one Gemini SDK chunk: the defensively extracted text when it
is non-empty (`if (textChunk)`), nothing otherwise. -/
def geminiChunkEmit (chunk : Json) : Option String :=
  let textChunk := extractTextFromGeminiChunk chunk
  if textChunk != "" then some textChunk else none

/-- Body of one iteration of the Gemini SDK streaming loop in
`streamGeminiWithFiles`. -/
def processGeminiChunk (acc : StreamAcc) (chunk : Json) : StreamAcc :=
  match geminiChunkEmit chunk with
  | some textChunk => ⟨acc.fullResponse ++ textChunk, acc.emitted ++ [textChunk]⟩
  | none => acc

/-- The Gemini streaming loop of `streamGeminiWithFiles`: the abort
controller is not wired into the SDK stream (it is consulted only by the
loop body), so the cooperative check at the top of each iteration body is
effective here: an abort fired while the loop awaits SDK chunk `i` is
observed when that chunk arrives, and the loop breaks before processing
it. -/
def streamGeminiLoop (abortedAt : Option Nat) :
    List Json → Nat → StreamAcc → StreamAcc
  | [], _, acc => acc
  | c :: rest, i, acc =>
    if abortSeen abortedAt i then acc
    else streamGeminiLoop abortedAt rest (i + 1) (processGeminiChunk acc c)

/-- `AIService.streamGeminiWithFiles` as a function of the SDK chunk sequence
and the iteration index at which the abort signal is first observed; on abort
it breaks out of the loop and returns the accumulated text normally. -/
def streamGeminiWithFiles (abortedAt : Option Nat) (chunks : List Json) : StreamAcc :=
  streamGeminiLoop abortedAt chunks 0 {}

end AIService

namespace MathUtils

/-- JavaScript `\w` (word character). -/
def isWordChar (c : Char) : Bool := c.isAlpha || c.isDigit || c = '_'

/-- JavaScript `\s` (whitespace character class). -/
def isJsSpace (c : Char) : Bool :=
  c = ' ' || c = '\t' || c = '\n' || c = '\r' || c = '\x0b' || c = '\x0c' ||
  c = '\u00a0' || c = '\u1680' || (0x2000 ≤ c.toNat && c.toNat ≤ 0x200a) ||
  c = '\u2028' || c = '\u2029' || c = '\u202f' || c = '\u205f' ||
  c = '\u3000' || c = '\ufeff'

/-- Unicode math symbols of the alternation `∫|∑|∏|∂|∇|∞|±|≤|≥|≠|≈|∈|∉|⊆|⊇|∪|∩|∅`. -/
def isUnicodeMathSymbol (c : Char) : Bool :=
  c = '∫' || c = '∑' || c = '∏' || c = '∂' || c = '∇' || c = '∞' || c = '±' ||
  c = '≤' || c = '≥' || c = '≠' || c = '≈' || c = '∈' || c = '∉' || c = '⊆' ||
  c = '⊇' || c = '∪' || c = '∩' || c = '∅'

/-- Relational operators of the class `[=<>≤≥≠]`. -/
def isRelOp (c : Char) : Bool :=
  c = '=' || c = '<' || c = '>' || c = '≤' || c = '≥' || c = '≠'

/-- Token of the small regex subset used by the math-pattern heuristics: a
literal character, one character from a class, or a greedy star over a class
(with backtracking, as in the JavaScript engine). A `+` quantifier is encoded
as `classOne p :: classStar p`. -/
inductive RTok where
  | lit (c : Char)
  | classOne (p : Char → Bool)
  | classStar (p : Char → Bool)

/-- Greedy backtracking for a star: try the longest repetition first and give
characters back one by one until the rest of the pattern matches. -/
def starSearch (k : List Char → Option Nat) (cs : List Char) : Nat → Option Nat
  | 0 => k cs
  | n + 1 =>
    match k (cs.drop (n + 1)) with
    | some m => some (n + 1 + m)
    | none => starSearch k cs n

/-- Match a token list against the beginning of `cs`, returning the number of
characters consumed, with JavaScript-style greedy backtracking. -/
def matchToks : List RTok → List Char → Option Nat
  | [], _ => some 0
  | .lit _ :: _, [] => none
  | .lit c :: toks, x :: rest =>
    if x = c then (matchToks toks rest).map (· + 1) else none
  | .classOne _ :: _, [] => none
  | .classOne p :: toks, x :: rest =>
    if p x then (matchToks toks rest).map (· + 1) else none
  | .classStar p :: toks, cs =>
    starSearch (matchToks toks) cs ((cs.takeWhile p).length)

/-- A `\b` assertion immediately before a word character holds iff the
previous character (if any) is not a word character. -/
def boundaryOk : Option Char → Bool
  | none => true
  | some c => !(isWordChar c)

/-- JavaScript `String.prototype.replace` with a global regex and the wrapping
callback of `ensureMathDelimiters`: scan left to right over the original text;
at each position try the pattern (subject to an optional leading `\b`); on a
match, emit it wrapped in dollar signs (unchanged if the matched text already
contains one) and resume just after it in the original text. -/
def globalWrapFuel (boundary : Bool) (toks : List RTok) :
    Nat → Option Char → List Char → List Char
  | _, _, [] => []
  | 0, _, cs => cs
  | fuel + 1, prev, c :: cs =>
    match (if boundary && !(boundaryOk prev) then none
           else matchToks toks (c :: cs)) with
    | some (n + 1) =>
      let matched := (c :: cs).take (n + 1)
      let replaced := if matched.contains '$' then matched
                      else '$' :: (matched ++ ['$'])
      replaced ++
        globalWrapFuel boundary toks fuel matched.getLast? ((c :: cs).drop (n + 1))
    | _ => c :: globalWrapFuel boundary toks fuel (some c) cs

/-- The scan itself, with the fuel (a technical device keeping the recursion
structural) initialized to the text length, which the scan never exhausts
since every step consumes at least one character. -/
def globalWrap (boundary : Bool) (toks : List RTok) (prev : Option Char)
    (cs : List Char) : List Char :=
  globalWrapFuel boundary toks cs.length prev cs

/-- Tokens for a literal string. -/
def litToks (s : String) : List RTok := s.data.map RTok.lit

/-- Tokens for `class+`, encoded as one occurrence followed by a star. -/
def plusToks (p : Char → Bool) : List RTok := [.classOne p, .classStar p]

/-- The `mathPatterns` array of `ensureMathDelimiters`, in source order; the
first component records a leading `\b` assertion. -/
def mathPatterns : List (Bool × List RTok) := [
  -- sub/superscripts with braces and without:  x^{2},  x^2
  (true, [.classOne Char.isAlpha, .classStar isWordChar, .classStar isJsSpace,
          .lit '^', .classStar isJsSpace, .lit '{'] ++
         plusToks (fun c => c ≠ '}') ++ [.lit '}']),
  (true, [.classOne Char.isAlpha, .classStar isWordChar, .classStar isJsSpace,
          .lit '^', .classStar isJsSpace] ++ plusToks isWordChar),
  (true, [.classOne Char.isAlpha, .classStar isWordChar, .classStar isJsSpace,
          .lit '_', .classStar isJsSpace, .lit '{'] ++
         plusToks (fun c => c ≠ '}') ++ [.lit '}']),
  (true, [.classOne Char.isAlpha, .classStar isWordChar, .classStar isJsSpace,
          .lit '_', .classStar isJsSpace] ++ plusToks isWordChar),
  -- backslash commands with and without a brace group
  (false, [.lit '\\'] ++ plusToks Char.isAlpha ++
          [.lit '{', .classStar (fun c => c ≠ '}'), .lit '}']),
  (false, [.lit '\\'] ++ plusToks Char.isAlpha),
  (false, litToks "\\mathbb" ++ [.lit '{'] ++
          plusToks (fun c => c ≠ '}') ++ [.lit '}']),
  (false, litToks "\\mathcal" ++ [.lit '{'] ++
          plusToks (fun c => c ≠ '}') ++ [.lit '}']),
  (false, litToks "\\mathrm" ++ [.lit '{'] ++
          plusToks (fun c => c ≠ '}') ++ [.lit '}']),
  -- numeric fractions such as 1/2
  (false, plusToks Char.isDigit ++ [.lit '/'] ++ plusToks Char.isDigit),
  -- unicode math symbols
  (false, [.classOne isUnicodeMathSymbol]),
  -- simple equations and inequalities such as x = y
  (false, [.classOne Char.isAlpha, .classStar isJsSpace, .classOne isRelOp,
           .classStar isJsSpace, .classOne Char.isAlphanum])]

/-- Substring test on character lists (JavaScript `includes` / regex `test`
of a literal alternative). -/
def listContainsSub (needle : List Char) : List Char → Bool
  | [] => needle.isEmpty
  | c :: cs => needle.isPrefixOf (c :: cs) || listContainsSub needle cs

/-- Environments of the block-math detection regex. -/
def blockMathEnvs : List String :=
  ["matrix", "pmatrix", "bmatrix", "vmatrix", "Vmatrix", "smallmatrix",
   "cases", "align", "equation", "split", "gather", "multline"]

/-- Test of the block-math regex: some literal `\begin{env}` occurs in the
text. -/
def needsBlockMath (text : String) : Bool :=
  blockMathEnvs.any (fun env =>
    listContainsSub ("\\begin\x7b" ++ env ++ "\x7d").data text.data)

/-- The sequential pattern loop of `ensureMathDelimiters`: each pattern is a
global replace over the result of the previous one. -/
def applyMathPatterns (text : String) : String :=
  mathPatterns.foldl (fun t pat => String.mk (globalWrap pat.1 pat.2 none t.data)) text

/-- `MathUtils.ensureMathDelimiters` from `MarkdownRenderer.ts`; the dollar
test models `text.includes('$') || text.includes('$$')` (the second disjunct
is subsumed by the first). -/
def ensureMathDelimiters (text : String) : String :=
  if text = "" then text
  else if text.data.contains '$' then text
  else if needsBlockMath text then "$$" ++ text ++ "$$"
  else applyMathPatterns text

end MathUtils

namespace QuizManager

/-- `TestQuestion` from `types.ts`, produced by the extraction pipeline. -/
structure TestQuestion where
  question : String
  options : List String
  correctAnswer : Int
  explanation : Option String
deriving Repr, DecidableEq

/-- The bracket-matching walk of `generateQuestionsWithAI`: with running depth
`depth` just before the remaining characters, return the relative index of the
character at which the depth (incremented at every open bracket, decremented
at every close bracket) first becomes zero via a close bracket. -/
def findClosing : List Char → Int → Option Nat
  | [], _ => none
  | c :: rest, depth =>
    if c = '[' then (findClosing rest (depth + 1)).map (· + 1)
    else if c = ']' then
      if depth - 1 = 0 then some 0
      else (findClosing rest (depth - 1)).map (· + 1)
    else (findClosing rest depth).map (· + 1)

/-- Backslash doubling performed before the first parse attempt. -/
def escapeBackslashes (s : String) : String :=
  String.mk (s.data.flatMap (fun c => if c = '\\' then ['\\', '\\'] else [c]))

/-- Slice extraction and two-pass parse of `generateQuestionsWithAI`: locate
the first open bracket, walk to the matching close bracket, slice inclusively,
then parse the backslash-escaped slice with the raw slice as fallback. -/
def extractQuestionsJson (parse : String → Option Json) (text : String) :
    Except String Json :=
  match text.data.findIdx? (fun c => c == '[') with
  | none => .error "No valid JSON array found in AI response"
  | some openPos =>
    match findClosing (text.data.drop openPos) 0 with
    | none => .error "No valid JSON array found in AI response"
    | some offset =>
      let jsonString := String.mk ((text.data.drop openPos).take (offset + 1))
      let safeJsonString := escapeBackslashes jsonString
      match parse safeJsonString with
      | some questions => .ok questions
      | none =>
        match parse jsonString with
        | some questions => .ok questions
        | none =>
          .error "Unable to parse valid question list from AI response. Please try again."

/-- Option texts passed one by one through `ensureMathDelimiters`. Elements
that are not strings are modelled as a TypeError: on truthy non-strings the
source itself throws inside `ensureMathDelimiters` (`text.includes` is not a
function); the exotic remaining corners (falsy non-string elements, which the
source passes through unchanged) are outside every claim and excluded here. -/
def optionStrings : List Json → Option (List String)
  | [] => some []
  | .str s :: rest => (optionStrings rest).map (fun ss => s :: ss)
  | _ :: _ => none

/-- Explanation handling `explanation ? ensureMathDelimiters(explanation) :
explanation`: truthy strings are normalized, truthy non-strings raise a
TypeError inside `ensureMathDelimiters`, falsy values are kept (modelled as
absence). -/
def explanationField (e : Option Json) : Except String (Option String) :=
  if jsTruthy e then
    match e with
    | some (.str s) => .ok (some (MathUtils.ensureMathDelimiters s))
    | _ => .error "TypeError: text.includes is not a function"
  else .ok none

/-- Per-element conversion and validation in the `questions.map` of
`generateQuestionsWithAI`: read compact or full keys, require a truthy
question, an array of options and a numeric in-range correct answer, then
return the normalized full-format question. -/
def processQuestion (q : Json) : Except String TestQuestion :=
  let question := jsOr (q.getField "q") (q.getField "question")
  let options := jsOr (q.getField "opts") (q.getField "options")
  let correctAnswer :=
    match q.getField "ans" with
    | some v => some v
    | none => q.getField "correctAnswer"
  let explanation := jsOr (q.getField "exp") (q.getField "explanation")
  if !(jsTruthy question) then .error "Invalid question structure"
  else
    match options, correctAnswer with
    | some (.arr opts), some (.num ans) =>
      if ans < 0 || (opts.length : Int) ≤ ans then
        .error "Invalid correct answer index"
      else
        match question with
        | some (.str questionText) =>
          match optionStrings opts with
          | some optionTexts =>
            match explanationField explanation with
            | .ok expl =>
              .ok ⟨MathUtils.ensureMathDelimiters questionText,
                   optionTexts.map MathUtils.ensureMathDelimiters, ans, expl⟩
            | .error e => .error e
          | none => .error "TypeError: text.includes is not a function"
        | _ => .error "TypeError: text.includes is not a function"
    | _, _ => .error "Invalid question structure"

/-- The element-wise map with exception propagation: JavaScript
`Array.prototype.map` applies the callback in order and the first throw aborts
the whole batch. -/
def mapProcessQuestion : List Json → Except String (List TestQuestion)
  | [] => .ok []
  | q :: rest =>
    match processQuestion q with
    | .ok tq =>
      match mapProcessQuestion rest with
      | .ok tqs => .ok (tq :: tqs)
      | .error e => .error e
    | .error e => .error e

/-- The non-empty-array check and per-element map of
`generateQuestionsWithAI`; the first failing element aborts the whole batch. -/
def processQuestions (questions : Json) : Except String (List TestQuestion) :=
  match questions with
  | .arr elems =>
    if elems.isEmpty then
      .error "Unable to parse valid question list from AI response. Please try again."
    else mapProcessQuestion elems
  | _ => .error "Unable to parse valid question list from AI response. Please try again."

/-- `TestData` from `types.ts`. -/
structure TestData where
  questions : List TestQuestion
  currentQuestion : Nat
  selectedAnswer : Option Nat
  answered : Bool
  correctAnswers : Nat
deriving Repr, DecidableEq

/-- `QuizManager.selectAnswer`: ignored once `answered`; otherwise records the
selection, flips `answered`, and increments the score exactly when the index
equals the current question's `correctAnswer`. -/
def selectAnswer (td : TestData) (answerIndex : Nat) : TestData :=
  if td.answered then td
  else
    let td1 := { td with selectedAnswer := some answerIndex, answered := true }
    match td1.questions[td1.currentQuestion]? with
    | some currentQuestion =>
      if (answerIndex : Int) = currentQuestion.correctAnswer then
        { td1 with correctAnswers := td1.correctAnswers + 1 }
      else td1
    | none => td1

/-- `TestResult` from `types.ts`. -/
structure TestResult where
  totalQuestions : Nat
  correctAnswers : Nat
  percentage : Nat
deriving Repr, DecidableEq

/-- `Math.round((correctAnswers / totalQuestions) * 100)` over the rationals:
floor of `100 * correct / total + 1/2`, i.e. rounding half up. -/
def roundPercentage (correct total : Nat) : Nat :=
  (200 * correct + total) / (2 * total)

/-- The result computed by `renderResultsScreen`. -/
def mkTestResult (td : TestData) : TestResult :=
  ⟨td.questions.length, td.correctAnswers,
   roundPercentage td.correctAnswers td.questions.length⟩

/-- Identity and visible content of one chat message. -/
structure ChatMessage where
  id : String
  role : String
  content : String
deriving Repr, DecidableEq

/-- The in-flight placeholder message. -/
def typingMessage : ChatMessage := ⟨"typing", "assistant", ""⟩

/-- Error notice pushed by the catch branch of `generateChatResponse`. -/
def chatErrorText : String :=
  "Sorry, I encountered an error processing your message. Please try again."

/-- In-place `assistantMessage.content` mutation, seen through the message
list that holds the reference. -/
def updateContent (id : String) (f : String → String) (ms : List ChatMessage) :
    List ChatMessage :=
  ms.map (fun m => if m.id = id then { m with content := f m.content } else m)

/-- The `onChunk` callback of `generateChatResponse`: the first chunk removes
the typing indicator and appends the assistant message; every chunk appends to
its content. The state is (messages, isFirstChunk). -/
def chatOnChunk (assistantId : String) (st : List ChatMessage × Bool)
    (chunk : String) : List ChatMessage × Bool :=
  let ms := if st.2 then
      (st.1.filter (fun m => m.id != "typing")) ++ [⟨assistantId, "assistant", ""⟩]
    else st.1
  (updateContent assistantId (fun c => c ++ chunk) ms, false)

/-- `QuizManager.generateChatResponse`, as a function of the chunk sequence
the stream delivers and of the final stream result (`.error` models a rejected
`onStreamAI` promise, `.ok full` a normal resolution with `full`). Returns
the session messages and the `isStreamingChat` flag after the `finally`
block. -/
def generateChatResponse (messages0 : List ChatMessage)
    (assistantId errorId : String) (chunks : List String)
    (result : Except Unit String) : List ChatMessage × Bool :=
  let ms0 := (messages0.filter (fun m => m.id != "typing")) ++ [typingMessage]
  let st : List ChatMessage × Bool := chunks.foldl (chatOnChunk assistantId) (ms0, true)
  let ms1 : List ChatMessage :=
    match result with
    | .ok fullResponse =>
      if st.2 then
        if fullResponse != "" then
          (st.1.filter (fun m => m.id != "typing")) ++
            [⟨assistantId, "assistant", fullResponse⟩]
        else st.1
      else
        updateContent assistantId
          (fun c => if fullResponse != "" then fullResponse else c) st.1
    | .error _ =>
      (st.1.filter (fun m => m.id != assistantId)) ++
        [⟨errorId, "assistant", chatErrorText⟩]
  (ms1.filter (fun m => m.id != "typing"), false)

end QuizManager

/-! ### Specification-side predicates and concrete fixtures used by the
theorems and their witnesses -/

/-- Running bracket depth contributed by a character list: open brackets count
plus one, close brackets count minus one. -/
def bracketDepth (cs : List Char) : Int :=
  (cs.count '[' : Int) - (cs.count ']' : Int)

/-- Position `n` closes the walk started with depth `d`: the character there
is a close bracket and the running depth over the inclusive prefix returns to
zero. -/
def closingAt (cs : List Char) (d : Int) (n : Nat) : Prop :=
  cs.get? n = some ']' ∧ d + bracketDepth (cs.take (n + 1)) = 0

instance (cs : List Char) (d : Int) (n : Nat) : Decidable (closingAt cs d n) := by
  unfold closingAt
  infer_instance

/-- Conditions on one raw element that claim C4 lists for the validation step:
truthy question, array-valued options, numeric correct answer within range. -/
def elemClaimValid (q : Json) : Bool :=
  jsTruthy (jsOr (q.getField "q") (q.getField "question")) &&
  (match jsOr (q.getField "opts") (q.getField "options"),
         (match q.getField "ans" with
          | some v => some v
          | none => q.getField "correctAnswer") with
   | some (.arr opts), some (.num ans) =>
     decide (0 ≤ ans) && decide (ans < (opts.length : Int))
   | _, _ => false)

/-- Explicitly well-formed Gemini wire response: a candidates array whose
entries each carry a `content.parts` array of parts with string `text`. -/
def mkGeminiResponse (candTexts : List (List String)) : Json :=
  .obj [("candidates", .arr (candTexts.map (fun parts =>
    .obj [("content", .obj [("parts", .arr (parts.map (fun s =>
      .obj [("text", .str s)])))])])))]

/-- Whether a math pattern matches somewhere in the remaining text, scanning
with the true previous character of the original text. -/
def hasMatchFrom (boundary : Bool) (toks : List MathUtils.RTok) :
    Option Char → List Char → Bool
  | _, [] => false
  | prev, c :: cs =>
    (match (if boundary && !(MathUtils.boundaryOk prev) then none
            else MathUtils.matchToks toks (c :: cs)) with
     | some (_ + 1) => true
     | _ => false) || hasMatchFrom boundary toks (some c) cs

/-- No heuristic math pattern matches anywhere in the text. -/
def noPatternMatches (text : String) : Bool :=
  MathUtils.mathPatterns.all (fun p => !(hasMatchFrom p.1 p.2 none text.data))

/-- Parse oracle fixture recognizing two concrete OpenAI-style SSE payloads. -/
def sampleParse : String → Option Json := fun s =>
  if s = "\x7b\"choices\":[\x7b\"delta\":\x7b\"content\":\"Hel\"\x7d\x7d]\x7d" then
    some (.obj [("choices", .arr [.obj [("delta", .obj [("content", .str "Hel")])]])])
  else if s = "\x7b\"choices\":[\x7b\"delta\":\x7b\"content\":\"lo\"\x7d\x7d]\x7d" then
    some (.obj [("choices", .arr [.obj [("delta", .obj [("content", .str "lo")])]])])
  else none

/-- SSE body chunk fixture carrying the first sample payload. -/
def sampleChunk1 : String :=
  "data: \x7b\"choices\":[\x7b\"delta\":\x7b\"content\":\"Hel\"\x7d\x7d]\x7d\ndata: [DONE]\n"

/-- SSE body chunk fixture carrying the second sample payload plus noise. -/
def sampleChunk2 : String :=
  "noise\ndata: \x7b\"choices\":[\x7b\"delta\":\x7b\"content\":\"lo\"\x7d\x7d]\x7d"

/-- Well-formed compact-format question fixture. -/
def sampleGoodQuestion : Json :=
  .obj [("q", .str "2+2?"), ("opts", .arr [.str "3", .str "4"]),
        ("ans", .num 1), ("exp", .str "math")]

/-- Question fixture with an out-of-range answer index (claim P6). -/
def sampleBadQuestion : Json :=
  .obj [("q", .str "x"), ("opts", .arr [.str "a", .str "b"]), ("ans", .num 5)]

/-- Settings fixture whose selected model is a user-registered custom model
with an OpenAI provider. -/
def sampleSettings : LjoveSToolsSettings :=
  ⟨"openai", "gemini-key", "openai-key", "deepseek-key", "my-custom-model",
   [⟨"my-custom-model", "My Custom Model", "openai"⟩]⟩

/-- Bracket-depth contribution of one character in the walk. -/
def charDelta (c : Char) : Int :=
  if c = '[' then 1 else if c = ']' then -1 else 0

/-- Parse oracle fixture recognizing one concrete array slice. -/
def sampleArrayParse : String → Option Json := fun s =>
  if s = "[a[b]]" then some (.arr [.num 7]) else none

/-- Quiz fixture: three questions whose correct answers are options 1, 0, 1. -/
def sampleQuiz : List QuizManager.TestQuestion :=
  [⟨"q1", ["a", "b"], 1, none⟩, ⟨"q2", ["a", "b"], 0, none⟩,
   ⟨"q3", ["a", "b"], 1, none⟩]

/-! ## Helper lemmas -/

theorem strJoin_foldl (l : List String) (a : String) :
    l.foldl (fun x y => x ++ y) a = a ++ String.join l := by
  induction l generalizing a with
  | nil => simp [String.join]
  | cons s t ih =>
    have h1 : (s :: t).foldl (fun x y => x ++ y) a =
        t.foldl (fun x y => x ++ y) (a ++ s) := rfl
    have h2 : String.join (s :: t) = t.foldl (fun x y => x ++ y) ("" ++ s) := rfl
    rw [h1, ih, h2, String.empty_append, ih, String.append_assoc]

theorem strJoin_cons (s : String) (l : List String) :
    String.join (s :: l) = s ++ String.join l := by
  have h : String.join (s :: l) = l.foldl (fun x y => x ++ y) ("" ++ s) := rfl
  rw [h, String.empty_append, strJoin_foldl]

/-! ## C10: unknown model ids resolve to the gemini provider and key -/

/-- C10: for every settings state whose selected model id is not in the
built-in `AVAILABLE_MODELS` catalog — in particular every user-registered
custom model — `getModelProvider` returns gemini and `getCurrentApiKey`
returns the Gemini API key, and both are unchanged under any replacement of
the `customModels` list: resolution consults only the built-in catalog and
silently defaults to gemini, regardless of the provider recorded on the
custom model. -/
theorem unknown_model_defaults_to_gemini (s : LjoveSToolsSettings)
    (h : ∀ m ∈ AVAILABLE_MODELS, m.id ≠ s.model) :
    AIService.getModelProvider s = "gemini" ∧
    AIService.getCurrentApiKey s = s.geminiApiKey ∧
    ∀ cms, AIService.getModelProvider { s with customModels := cms } = "gemini" ∧
           AIService.getCurrentApiKey { s with customModels := cms } = s.geminiApiKey := by
  have hf : AVAILABLE_MODELS.find? (fun m => m.id == s.model) = none := by
    rw [List.find?_eq_none]
    intro m hm
    simpa using h m hm
  refine ⟨?_, ?_, fun cms => ⟨?_, ?_⟩⟩ <;>
    simp only [AIService.getModelProvider, AIService.getCurrentApiKey, hf] <;> rfl

/-- C10 witness: the fixture settings select a custom model id registered with
an OpenAI provider, yet resolution yields gemini and the Gemini key. -/
theorem unknown_model_defaults_to_gemini_witness :
    AIService.getModelProvider sampleSettings = "gemini" ∧
    AIService.getCurrentApiKey sampleSettings = "gemini-key" := by
  have h := unknown_model_defaults_to_gemini sampleSettings (by decide)
  exact ⟨h.1, h.2.1⟩

/-! ## C7: the provider adapter performs no provider/model consistency check -/

/-- C7 counterexample: `callAI` invoked on the OpenAI branch while the
configured model id `deepseek-chat` belongs to the DeepSeek catalog entry does
not fail fast: the pre-network phase builds the request for the OpenAI
endpoint with the mismatched model id embedded, so the request is silently
sent to the mismatched endpoint. -/
theorem callAI_mismatch_dispatched :
    AIService.callAIRequest "deepseek-chat" "openai" =
      .ok ⟨AIService.Endpoint.openai, "deepseek-chat"⟩ ∧
    (AVAILABLE_MODELS.find? (fun m => m.id == "deepseek-chat")).map
        (fun m => m.provider) = some "deepseek" := by
  constructor <;> rfl

/-- Endpoint owned by a provider name, following the `switch (provider)`. -/
def providerEndpoint (provider : String) : AIService.Endpoint :=
  match provider with
  | "openai" => .openai
  | "deepseek" => .deepseek
  | _ => .gemini

/-- C7 amended: `callAI` performs no provider/model consistency validation —
its pre-network phase always succeeds and targets the endpoint selected by the
`provider` argument alone, embedding `settings.model` whatever it is; the
mismatch is avoided only because callers derive `provider` via
`getModelProvider`, which maps every catalog model id to its own catalog
provider, so along that path a catalog model is always dispatched to the
endpoint of its own provider. -/
theorem callAI_dispatch_follows_provider_argument (model provider : String)
    (s : LjoveSToolsSettings) (m : ModelInfo)
    (hm : m ∈ AVAILABLE_MODELS) (hid : m.id = s.model) :
    AIService.callAIRequest model provider = .ok ⟨providerEndpoint provider, model⟩ ∧
    AIService.getModelProvider s = m.provider ∧
    AIService.callAIRequest s.model (AIService.getModelProvider s) =
      .ok ⟨providerEndpoint m.provider, s.model⟩ := by
  have hdisp : ∀ mo pr, AIService.callAIRequest mo pr = .ok ⟨providerEndpoint pr, mo⟩ := by
    intro mo pr
    unfold AIService.callAIRequest providerEndpoint
    split <;> rfl
  have hprov : AIService.getModelProvider s = m.provider := by
    fin_cases hm <;>
      simp_all [AIService.getModelProvider, AVAILABLE_MODELS, List.find?, ← hid]
  exact ⟨hdisp model provider, hprov, by rw [hprov]; exact hdisp s.model m.provider⟩

/-- C7 witness: through the code's own path, the deepseek-chat catalog model
resolves to the deepseek provider and is dispatched to the DeepSeek
endpoint. -/
theorem callAI_dispatch_follows_provider_argument_witness :
    AIService.callAIRequest "deepseek-chat"
        (AIService.getModelProvider
          ⟨"deepseek", "g", "o", "d", "deepseek-chat", []⟩) =
      .ok ⟨AIService.Endpoint.deepseek, "deepseek-chat"⟩ := by
  have h := callAI_dispatch_follows_provider_argument "deepseek-chat" "openai"
    ⟨"deepseek", "g", "o", "d", "deepseek-chat", []⟩
    ⟨"deepseek-chat", "DeepSeek-V3-0324", "deepseek"⟩ (by decide) (by decide)
  exact h.2.2

/-! ## C6: quiz answer selection and scoring -/

theorem selectAnswer_of_answered (td : QuizManager.TestData) (j : Nat)
    (h : td.answered = true) : QuizManager.selectAnswer td j = td := by
  simp [QuizManager.selectAnswer, h]

theorem selectAnswer_sets_answered (td : QuizManager.TestData) (i : Nat)
    (h : td.answered = false) :
    (QuizManager.selectAnswer td i).answered = true := by
  simp only [QuizManager.selectAnswer, h, Bool.false_eq_true, if_false]
  cases hq : td.questions[td.currentQuestion]? with
  | none => simp [hq]
  | some q => by_cases hc : (i : Int) = q.correctAnswer <;> simp [hq, hc]

/-- C6: selecting an answer has an effect only while `answered` is false; a
selection records the index, flips `answered`, and increments the score
exactly when the index equals the current question's `correctAnswer`; once
answered, further selections are ignored; and the computed percentage is the
half-up rounding of `100 * correctAnswers / totalQuestions`. -/
theorem selectAnswer_scoring (td : QuizManager.TestData) (i j : Nat) :
    (td.answered = true → QuizManager.selectAnswer td i = td) ∧
    (td.answered = false →
      (QuizManager.selectAnswer td i).answered = true ∧
      (QuizManager.selectAnswer td i).selectedAnswer = some i ∧
      (QuizManager.selectAnswer td i).questions = td.questions ∧
      (QuizManager.selectAnswer td i).currentQuestion = td.currentQuestion ∧
      (QuizManager.selectAnswer td i).correctAnswers = td.correctAnswers +
        (if (td.questions[td.currentQuestion]?).map
              (fun q => q.correctAnswer) = some (i : Int)
         then 1 else 0)) ∧
    QuizManager.selectAnswer (QuizManager.selectAnswer td i) j =
      QuizManager.selectAnswer td i ∧
    (0 < td.questions.length →
      2 * td.questions.length * (QuizManager.mkTestResult td).percentage ≤
          200 * td.correctAnswers + td.questions.length ∧
      200 * td.correctAnswers + td.questions.length <
          2 * td.questions.length * ((QuizManager.mkTestResult td).percentage + 1)) := by
  refine ⟨?_, ?_, ?_, ?_⟩
  · intro h
    exact selectAnswer_of_answered td i h
  · intro h
    simp only [QuizManager.selectAnswer, h, Bool.false_eq_true, if_false]
    cases hq : td.questions[td.currentQuestion]? with
    | none => simp [hq]
    | some q =>
      by_cases hc : (i : Int) = q.correctAnswer
      · simp [hq, hc]
      · simp [hq, hc, Ne.symm hc]
  · by_cases h : td.answered
    · rw [selectAnswer_of_answered td i h]
      exact selectAnswer_of_answered td j h
    · exact selectAnswer_of_answered _ j (selectAnswer_sets_answered td i (by simpa using h))
  · intro h
    have hmod := Nat.div_add_mod (200 * td.correctAnswers + td.questions.length)
      (2 * td.questions.length)
    have hlt : (200 * td.correctAnswers + td.questions.length) %
        (2 * td.questions.length) < 2 * td.questions.length :=
      Nat.mod_lt _ (by omega)
    simp only [QuizManager.mkTestResult, QuizManager.roundPercentage]
    rw [Nat.mul_succ]
    omega

/-- C6 witness: on the three-question fixture, answering 1 (correct), 1
(incorrect), 1 (correct) yields two correct answers, a repeated selection on
an answered question is ignored, and the percentage is round(100*2/3) = 67. -/
theorem selectAnswer_scoring_witness :
    (QuizManager.selectAnswer
        ⟨sampleQuiz, 0, none, false, 0⟩ 1).correctAnswers = 1 ∧
    QuizManager.selectAnswer (QuizManager.selectAnswer
        ⟨sampleQuiz, 0, none, false, 0⟩ 1) 0 =
      QuizManager.selectAnswer ⟨sampleQuiz, 0, none, false, 0⟩ 1 ∧
    (QuizManager.mkTestResult ⟨sampleQuiz, 2, none, true, 2⟩).percentage = 67 ∧
    2 * 3 * (QuizManager.mkTestResult ⟨sampleQuiz, 2, none, true, 2⟩).percentage ≤
      200 * 2 + 3 := by
  refine ⟨?_, ?_, by decide, ?_⟩
  · have h := (selectAnswer_scoring ⟨sampleQuiz, 0, none, false, 0⟩ 1 0).2.1 (by decide)
    rw [h.2.2.2.2]
    decide
  · exact (selectAnswer_scoring ⟨sampleQuiz, 0, none, false, 0⟩ 1 0).2.2.1
  · exact ((selectAnswer_scoring ⟨sampleQuiz, 2, none, true, 2⟩ 0 0).2.2.2
      (by decide)).1

/-! ## Streaming loop lemmas -/

theorem foldl_processLine (parse : String → Option Json)
    (lines : List (List Char)) (acc : AIService.StreamAcc) :
    lines.foldl (AIService.processLine parse) acc =
      ⟨acc.fullResponse ++
         String.join (lines.filterMap (AIService.sseLineContent parse)),
       acc.emitted ++ lines.filterMap (AIService.sseLineContent parse)⟩ := by
  induction lines generalizing acc with
  | nil =>
    cases acc
    simp [String.join]
  | cons line rest ih =>
    rw [List.foldl_cons, ih]
    cases h : AIService.sseLineContent parse line with
    | none => simp [AIService.processLine, h]
    | some c =>
      simp [AIService.processLine, h, strJoin_cons, String.append_assoc]

theorem foldl_processChunk (parse : String → Option Json) (chunks : List String)
    (acc : AIService.StreamAcc) :
    chunks.foldl (AIService.processChunk parse) acc =
      (chunks.flatMap (fun c => AIService.splitOnChar '\n' c.data)).foldl
        (AIService.processLine parse) acc := by
  induction chunks generalizing acc with
  | nil => rfl
  | cons c rest ih =>
    rw [List.foldl_cons, ih, List.flatMap_cons, List.foldl_append]
    rfl

theorem streamAI_none_eq (parse : String → Option Json) (chunks : List String) :
    AIService.streamAI parse none chunks =
      { fullResponse := String.join
          ((chunks.flatMap (fun c => AIService.splitOnChar '\n' c.data)).filterMap
            (AIService.sseLineContent parse)),
        emitted := (chunks.flatMap
            (fun c => AIService.splitOnChar '\n' c.data)).filterMap
          (AIService.sseLineContent parse),
        rejected := false } := by
  unfold AIService.streamAI
  rw [foldl_processChunk, foldl_processLine]
  simp [String.empty_append]

theorem streamAI_abort_eq (parse : String → Option Json) (chunks : List String)
    (j : Nat) (h : j ≤ chunks.length) :
    AIService.streamAI parse (some j) chunks =
      { fullResponse := (AIService.streamAI parse none (chunks.take j)).fullResponse,
        emitted := (AIService.streamAI parse none (chunks.take j)).emitted,
        rejected := true } := by
  unfold AIService.streamAI
  dsimp only
  rw [if_pos h]

theorem geminiLoop_none (chunks : List Json) (i : Nat)
    (acc : AIService.StreamAcc) :
    AIService.streamGeminiLoop none chunks i acc =
      chunks.foldl AIService.processGeminiChunk acc := by
  induction chunks generalizing i acc with
  | nil => rfl
  | cons c rest ih =>
    simp only [AIService.streamGeminiLoop, AIService.abortSeen,
      Bool.false_eq_true, if_false, List.foldl_cons]
    exact ih (i + 1) _

theorem geminiLoop_abort (j : Nat) (chunks : List Json) (i : Nat)
    (acc : AIService.StreamAcc) :
    AIService.streamGeminiLoop (some j) chunks i acc =
      AIService.streamGeminiLoop none (chunks.take (j - i)) i acc := by
  induction chunks generalizing i acc with
  | nil => simp [AIService.streamGeminiLoop]
  | cons c rest ih =>
    by_cases h : j ≤ i
    · have h0 : j - i = 0 := by omega
      simp [AIService.streamGeminiLoop, AIService.abortSeen, h, h0]
    · have h1 : j - i = (j - (i + 1)) + 1 := by omega
      rw [h1, List.take_succ_cons]
      simp only [AIService.streamGeminiLoop, AIService.abortSeen,
        decide_eq_true_eq, h, if_false]
      exact ih (i + 1) _

theorem foldl_processGeminiChunk (chunks : List Json)
    (acc : AIService.StreamAcc) :
    chunks.foldl AIService.processGeminiChunk acc =
      ⟨acc.fullResponse ++
         String.join (chunks.filterMap AIService.geminiChunkEmit),
       acc.emitted ++ chunks.filterMap AIService.geminiChunkEmit⟩ := by
  induction chunks generalizing acc with
  | nil =>
    cases acc
    simp [String.join]
  | cons c rest ih =>
    rw [List.foldl_cons, ih]
    cases h : AIService.geminiChunkEmit c with
    | none => simp [AIService.processGeminiChunk, h]
    | some t =>
      simp [AIService.processGeminiChunk, h, strJoin_cons, String.append_assoc]

/-! ## C1: the line-delimited SSE decoding protocol of `streamAI` -/

/-- C1: over the OpenAI/DeepSeek streaming path, for any decoded body chunk
sequence and any parse oracle, the `onChunk` invocation log is exactly the
per-line emissions (chunks split on newline, lines in order), the returned
`fullResponse` is the concatenation of exactly the emitted strings in order,
and per line: only `data: `-prefixed lines are considered, the `[DONE]`
sentinel and lines whose payload fails to JSON-decode are silently skipped,
and a line whose decoded `choices[0].delta.content` is a non-empty string is
emitted exactly once with that string. -/
theorem streamAI_sse_protocol (parse : String → Option Json)
    (chunks : List String) :
    (AIService.streamAI parse none chunks).emitted =
      (chunks.flatMap (fun c => AIService.splitOnChar '\n' c.data)).filterMap
        (AIService.sseLineContent parse) ∧
    (AIService.streamAI parse none chunks).fullResponse =
      String.join (AIService.streamAI parse none chunks).emitted ∧
    (∀ line, "data: ".data.isPrefixOf line = false →
      AIService.sseLineContent parse line = none) ∧
    (∀ line, "data: ".data.isPrefixOf line = true → line.drop 6 = "[DONE]".data →
      AIService.sseLineContent parse line = none) ∧
    (∀ line, "data: ".data.isPrefixOf line = true →
      parse (String.mk (line.drop 6)) = none →
      AIService.sseLineContent parse line = none) ∧
    (∀ line p s, "data: ".data.isPrefixOf line = true →
      line.drop 6 ≠ "[DONE]".data →
      parse (String.mk (line.drop 6)) = some p →
      AIService.deltaContent p = some (.str s) → s ≠ "" →
      AIService.sseLineContent parse line = some s) := by
  have hrun := streamAI_none_eq parse chunks
  refine ⟨?_, ?_, ?_, ?_, ?_, ?_⟩
  · rw [hrun]
  · rw [hrun]
  · intro line h
    simp [AIService.sseLineContent, h]
  · intro line h hd
    simp [AIService.sseLineContent, h, hd]
  · intro line h hp
    by_cases hd : line.drop 6 = "[DONE]".data
    · simp [AIService.sseLineContent, h, hd]
    · simp [AIService.sseLineContent, h, hd, hp]
  · intro line p s h hd hp hc hs
    simp [AIService.sseLineContent, h, hd, hp, hc, jsTruthy, hs, jsToString,
      jsToStringFuel]

/-- C1 witness: two sample chunks (the second with noise and a split) emit the
two payload contents in order and return their concatenation. -/
theorem streamAI_sse_protocol_witness :
    (AIService.streamAI sampleParse none [sampleChunk1, sampleChunk2]).emitted =
      ["Hel", "lo"] ∧
    (AIService.streamAI sampleParse none [sampleChunk1, sampleChunk2]).fullResponse =
      "Hello" ∧
    AIService.sseLineContent sampleParse "noise".data = none := by
  have h := streamAI_sse_protocol sampleParse [sampleChunk1, sampleChunk2]
  refine ⟨?_, ?_, h.2.2.1 "noise".data (by decide)⟩
  · rw [h.1]
    decide
  · rw [h.2.1, h.1]
    decide

/-! ## C2: cancellation rejects on the SSE paths and returns gracefully only
on the Gemini path -/

/-- C2 counterexample: cancelling a `streamAI` call on the OpenAI/DeepSeek
path before any chunk is emitted does not complete normally: the abort signal
is wired into `fetch`, so the pending first read rejects with an AbortError
that the catch rethrows — the promise rejects (with no `onChunk` calls)
instead of resolving with the empty string. -/
theorem streamAI_cancel_rejects_cex :
    (AIService.streamAI sampleParse (some 0) [sampleChunk1]).rejected = true ∧
    (AIService.streamAI sampleParse (some 0) [sampleChunk1]).emitted = [] := by
  constructor <;> rfl

/-- C2 amended: on the OpenAI/DeepSeek path the abort signal is wired into
`fetch`, so cancellation surfaces as a rejected promise: an abort during the
pending read after `j` chunk reads resolved leaves the `onChunk` log at
exactly the emissions of the first `j` chunks — a prefix of the uncancelled
run, so no further `onChunk` calls occur — with the accumulated text equal to
their concatenation, and the call rejects rather than returning; without an
abort it resolves normally. Only on the Gemini SDK path, which is not
signal-wired, is cancellation the claimed graceful early return: the loop
exits at the next chunk boundary and returns exactly the concatenation of
the chunks emitted before the stop, never raising. -/
theorem streamAI_cancellation (parse : String → Option Json)
    (chunks : List String) (j : Nat) (gchunks : List Json)
    (hj : j ≤ chunks.length) :
    (AIService.streamAI parse (some j) chunks).rejected = true ∧
    (AIService.streamAI parse (some j) chunks).emitted =
      (AIService.streamAI parse none (chunks.take j)).emitted ∧
    (∃ rest, (AIService.streamAI parse none chunks).emitted =
      (AIService.streamAI parse (some j) chunks).emitted ++ rest) ∧
    (AIService.streamAI parse (some j) chunks).fullResponse =
      String.join (AIService.streamAI parse (some j) chunks).emitted ∧
    (AIService.streamAI parse none chunks).rejected = false ∧
    AIService.streamGeminiWithFiles (some j) gchunks =
      AIService.streamGeminiWithFiles none (gchunks.take j) ∧
    AIService.streamGeminiWithFiles (some 0) gchunks = ⟨"", []⟩ ∧
    (∃ grest, (AIService.streamGeminiWithFiles none gchunks).emitted =
      (AIService.streamGeminiWithFiles (some j) gchunks).emitted ++ grest) ∧
    (AIService.streamGeminiWithFiles (some j) gchunks).fullResponse =
      String.join (AIService.streamGeminiWithFiles (some j) gchunks).emitted := by
  have habort := streamAI_abort_eq parse chunks j hj
  have hgtake : AIService.streamGeminiWithFiles (some j) gchunks =
      AIService.streamGeminiWithFiles none (gchunks.take j) := by
    unfold AIService.streamGeminiWithFiles
    rw [geminiLoop_abort, Nat.sub_zero]
  have hgchar : ∀ cs : List Json, AIService.streamGeminiWithFiles none cs =
      ⟨String.join (cs.filterMap AIService.geminiChunkEmit),
       cs.filterMap AIService.geminiChunkEmit⟩ := by
    intro cs
    unfold AIService.streamGeminiWithFiles
    rw [geminiLoop_none, foldl_processGeminiChunk]
    simp [String.empty_append]
  refine ⟨?_, ?_, ?_, ?_, ?_, hgtake, ?_, ?_, ?_⟩
  · rw [habort]
  · rw [habort]
  · refine ⟨((chunks.drop j).flatMap
      (fun c => AIService.splitOnChar '\n' c.data)).filterMap
      (AIService.sseLineContent parse), ?_⟩
    have key : (chunks.flatMap
          (fun c => AIService.splitOnChar '\n' c.data)).filterMap
          (AIService.sseLineContent parse) =
        ((chunks.take j).flatMap
          (fun c => AIService.splitOnChar '\n' c.data)).filterMap
          (AIService.sseLineContent parse) ++
        ((chunks.drop j).flatMap
          (fun c => AIService.splitOnChar '\n' c.data)).filterMap
          (AIService.sseLineContent parse) := by
      rw [← List.filterMap_append, ← List.flatMap_append, List.take_append_drop]
    rw [habort, streamAI_none_eq, streamAI_none_eq]
    exact key
  · rw [habort, streamAI_none_eq]
  · rw [streamAI_none_eq]
  · have h0 : AIService.streamGeminiWithFiles (some 0) gchunks =
        AIService.streamGeminiWithFiles none (gchunks.take 0) := by
      unfold AIService.streamGeminiWithFiles
      rw [geminiLoop_abort, Nat.sub_zero]
    rw [h0]
    rfl
  · refine ⟨(gchunks.drop j).filterMap AIService.geminiChunkEmit, ?_⟩
    have key : gchunks.filterMap AIService.geminiChunkEmit =
        (gchunks.take j).filterMap AIService.geminiChunkEmit ++
        (gchunks.drop j).filterMap AIService.geminiChunkEmit := by
      rw [← List.filterMap_append, List.take_append_drop]
    rw [hgtake, hgchar, hgchar]
    exact key
  · rw [hgtake, hgchar]

/-- C2 witness: aborting during the second read of a two-chunk SSE body
rejects the run with exactly the first chunk emitted; aborting a Gemini run
before any chunk returns the empty accumulator normally. -/
theorem streamAI_cancellation_witness :
    (AIService.streamAI sampleParse (some 1) [sampleChunk1, sampleChunk2]).rejected =
      true ∧
    (AIService.streamAI sampleParse (some 1) [sampleChunk1, sampleChunk2]).emitted =
      ["Hel"] ∧
    AIService.streamGeminiWithFiles (some 0) [mkGeminiResponse [["Hel"]]] =
      ⟨"", []⟩ := by
  have h := streamAI_cancellation sampleParse [sampleChunk1, sampleChunk2] 1
    [mkGeminiResponse [["Hel"]]] (by decide)
  refine ⟨h.1, ?_, h.2.2.2.2.2.2.1⟩
  rw [h.2.1]
  decide

/-! ## C5: defensive Gemini response parsing -/

theorem geminiParts_foldl (parts : List Json) (a : String) :
    parts.foldl (fun a p => a ++ AIService.geminiPartText p) a =
      a ++ String.join (parts.map AIService.geminiPartText) := by
  induction parts generalizing a with
  | nil => simp [String.join]
  | cons p rest ih =>
    rw [List.foldl_cons, ih, List.map_cons, strJoin_cons, String.append_assoc]

theorem geminiConcat_acc (cands : List Json) (acc : String) :
    cands.foldl (fun acc cand =>
      match AIService.candidateParts cand with
      | some parts => parts.foldl (fun a p => a ++ AIService.geminiPartText p) acc
      | none => acc) acc = acc ++ AIService.geminiConcat cands := by
  induction cands generalizing acc with
  | nil => simp [AIService.geminiConcat]
  | cons c rest ih =>
    rw [List.foldl_cons]
    have hout : AIService.geminiConcat (c :: rest) =
        rest.foldl (fun acc cand =>
          match AIService.candidateParts cand with
          | some parts => parts.foldl (fun a p => a ++ AIService.geminiPartText p) acc
          | none => acc)
          (match AIService.candidateParts c with
           | some parts => parts.foldl (fun a p => a ++ AIService.geminiPartText p) ""
           | none => "") := rfl
    rw [ih, hout, ih]
    cases hp : AIService.candidateParts c with
    | none => simp [String.empty_append]
    | some parts =>
      simp only [geminiParts_foldl, String.empty_append, String.append_assoc]

theorem geminiConcat_cons (c : Json) (cands : List Json) :
    AIService.geminiConcat (c :: cands) =
      (match AIService.candidateParts c with
       | some parts => String.join (parts.map AIService.geminiPartText)
       | none => "") ++ AIService.geminiConcat cands := by
  have h : AIService.geminiConcat (c :: cands) =
      cands.foldl (fun acc cand =>
        match AIService.candidateParts cand with
        | some parts => parts.foldl (fun a p => a ++ AIService.geminiPartText p) acc
        | none => acc)
        (match AIService.candidateParts c with
         | some parts => parts.foldl (fun a p => a ++ AIService.geminiPartText p) ""
         | none => "") := rfl
  rw [h, geminiConcat_acc]
  cases hp : AIService.candidateParts c with
  | none => rfl
  | some parts =>
    dsimp only
    rw [geminiParts_foldl, String.empty_append]

theorem geminiConcat_mk (candTexts : List (List String)) :
    AIService.geminiConcat (candTexts.map (fun parts =>
      Json.obj [("content", Json.obj [("parts", Json.arr (parts.map (fun s =>
        Json.obj [("text", Json.str s)])))])])) =
      String.join (candTexts.map String.join) := by
  induction candTexts with
  | nil => rfl
  | cons ts rest ih =>
    rw [List.map_cons, geminiConcat_cons, ih, List.map_cons, strJoin_cons]
    have hparts : AIService.candidateParts
        (Json.obj [("content", Json.obj [("parts", Json.arr (ts.map (fun s =>
          Json.obj [("text", Json.str s)])))])]) =
        some (ts.map (fun s => Json.obj [("text", Json.str s)])) := rfl
    rw [hparts]
    dsimp only
    congr 1
    rw [List.map_map]
    have hcomp : (AIService.geminiPartText ∘ (fun s : String =>
        Json.obj [("text", Json.str s)])) = fun s : String => s := by
      funext s
      rfl
    rw [hcomp]
    simp

/-- C5: the non-streaming Gemini parser succeeds exactly when the defensive
concatenation over every part of every candidate is non-empty (and then
returns it), raising a parse error iff no text is recoverable, while the
streaming-chunk variant returns the same concatenation with the empty string
in place of the error; candidates without a `content.parts` array contribute
nothing; and on an explicitly well-formed response the result concatenates
every part of every candidate in order. -/
theorem gemini_extractors (data : Json) (candTexts : List (List String))
    (c : Json) (cands : List Json) :
    ((AIService.extractTextFromGeminiResponse data).isOk = true ↔
      AIService.extractTextFromGeminiChunk data ≠ "") ∧
    (∀ t, AIService.extractTextFromGeminiResponse data = .ok t →
      t = AIService.extractTextFromGeminiChunk data ∧ t ≠ "") ∧
    (AIService.candidateParts c = none →
      AIService.geminiConcat (c :: cands) = AIService.geminiConcat cands) ∧
    AIService.extractTextFromGeminiChunk (mkGeminiResponse candTexts) =
      String.join (candTexts.map String.join) := by
  refine ⟨?_, ?_, ?_, ?_⟩
  · cases hc : data.getField "candidates" with
    | none => simp [AIService.extractTextFromGeminiResponse,
        AIService.extractTextFromGeminiChunk, hc, Except.isOk, Except.toBool]
    | some jv =>
      cases jv with
      | arr cands0 =>
        by_cases hz : AIService.geminiConcat cands0 = "" <;>
          simp [AIService.extractTextFromGeminiResponse,
            AIService.extractTextFromGeminiChunk, hc, hz, Except.isOk, Except.toBool]
      | null => simp [AIService.extractTextFromGeminiResponse,
          AIService.extractTextFromGeminiChunk, hc, Except.isOk, Except.toBool]
      | bool b => simp [AIService.extractTextFromGeminiResponse,
          AIService.extractTextFromGeminiChunk, hc, Except.isOk, Except.toBool]
      | num n => simp [AIService.extractTextFromGeminiResponse,
          AIService.extractTextFromGeminiChunk, hc, Except.isOk, Except.toBool]
      | str s => simp [AIService.extractTextFromGeminiResponse,
          AIService.extractTextFromGeminiChunk, hc, Except.isOk, Except.toBool]
      | obj fs => simp [AIService.extractTextFromGeminiResponse,
          AIService.extractTextFromGeminiChunk, hc, Except.isOk, Except.toBool]
  · intro t ht
    cases hc : data.getField "candidates" with
    | none => rw [AIService.extractTextFromGeminiResponse] at ht; simp [hc] at ht
    | some jv =>
      cases jv with
      | arr cands0 =>
        rw [AIService.extractTextFromGeminiResponse] at ht
        simp only [hc] at ht
        by_cases hz : AIService.geminiConcat cands0 = ""
        · simp [hz] at ht
        · simp only [hz, if_false, Except.ok.injEq] at ht
          subst ht
          simp [AIService.extractTextFromGeminiChunk, hc, hz]
      | null => rw [AIService.extractTextFromGeminiResponse] at ht; simp [hc] at ht
      | bool b => rw [AIService.extractTextFromGeminiResponse] at ht; simp [hc] at ht
      | num n => rw [AIService.extractTextFromGeminiResponse] at ht; simp [hc] at ht
      | str s => rw [AIService.extractTextFromGeminiResponse] at ht; simp [hc] at ht
      | obj fs => rw [AIService.extractTextFromGeminiResponse] at ht; simp [hc] at ht
  · intro hp
    rw [geminiConcat_cons, hp, String.empty_append]
  · have hc : (mkGeminiResponse candTexts).getField "candidates" =
        some (.arr (candTexts.map (fun parts =>
          Json.obj [("content", Json.obj [("parts", Json.arr (parts.map (fun s =>
            Json.obj [("text", Json.str s)])))])]))) := rfl
    rw [AIService.extractTextFromGeminiChunk, hc]
    exact geminiConcat_mk candTexts

/-- C5 witness: a two-candidate response with parts a, b and c concatenates
across all candidates and parts; a null candidate contributes nothing; the
non-streaming parser returns the same text. -/
theorem gemini_extractors_witness :
    AIService.extractTextFromGeminiChunk (mkGeminiResponse [["a", "b"], ["c"]]) =
      "abc" ∧
    AIService.extractTextFromGeminiResponse (mkGeminiResponse [["a", "b"], ["c"]]) =
      .ok "abc" ∧
    AIService.geminiConcat [Json.null] = AIService.geminiConcat [] := by
  have h := gemini_extractors (mkGeminiResponse [["a", "b"], ["c"]])
    [["a", "b"], ["c"]] Json.null []
  refine ⟨?_, by rfl, h.2.2.1 (by rfl)⟩
  rw [h.2.2.2]
  rfl

/-! ## C4: question validation is all-or-nothing -/

theorem processQuestion_ok_valid (e : Json) (q : QuizManager.TestQuestion)
    (h : QuizManager.processQuestion e = .ok q) : elemClaimValid e = true := by
  unfold QuizManager.processQuestion at h
  unfold elemClaimValid
  by_cases hq : jsTruthy (jsOr (e.getField "q") (e.getField "question")) = true
  · rw [hq, Bool.true_and]
    simp only [hq, Bool.not_true, Bool.false_eq_true, if_false] at h
    split at h
    next opts ans heq1 heq2 =>
      split at h
      next hrange => exact absurd h (by simp)
      next hrange =>
        simp only [Bool.or_eq_true, not_or, decide_eq_true_eq] at hrange
        simp only [Bool.and_eq_true, decide_eq_true_eq]
        omega
    next h1 => exact absurd h (by simp)
  · have hqf : jsTruthy (jsOr (e.getField "q") (e.getField "question")) = false :=
      Bool.eq_false_iff.mpr hq
    simp only [hqf, Bool.not_false, if_true] at h
    exact absurd h (by simp)

theorem processQuestion_err_of_invalid (e : Json)
    (h : elemClaimValid e = false) :
    ∃ msg, QuizManager.processQuestion e = .error msg := by
  unfold elemClaimValid at h
  unfold QuizManager.processQuestion
  by_cases hq : jsTruthy (jsOr (e.getField "q") (e.getField "question")) = true
  · rw [hq, Bool.true_and] at h
    simp only [hq, Bool.not_true, Bool.false_eq_true, if_false]
    split at h
    next opts ans heq1 heq2 =>
      simp only [Bool.and_eq_false_iff, decide_eq_false_iff_not, not_le,
        not_lt] at h
      have hrange : (decide (ans < 0) || decide ((opts.length : Int) ≤ ans)) = true := by
        simp only [Bool.or_eq_true, decide_eq_true_eq]
        omega
      refine ⟨"Invalid correct answer index", ?_⟩
      simp [hrange]
    next hne => exact ⟨_, rfl⟩
  · have hqf : jsTruthy (jsOr (e.getField "q") (e.getField "question")) = false :=
      Bool.eq_false_iff.mpr hq
    simp only [hqf, Bool.not_false, if_true]
    exact ⟨_, rfl⟩

theorem mapProcessQuestion_ok (elems : List Json)
    (l : List QuizManager.TestQuestion)
    (h : QuizManager.mapProcessQuestion elems = .ok l) :
    l.length = elems.length ∧
    ∀ x ∈ elems, ∃ b, QuizManager.processQuestion x = .ok b := by
  induction elems generalizing l with
  | nil =>
    simp only [QuizManager.mapProcessQuestion, Except.ok.injEq] at h
    subst h
    simp
  | cons a t ih =>
    rw [QuizManager.mapProcessQuestion] at h
    cases hf : QuizManager.processQuestion a with
    | error msg => rw [hf] at h; exact absurd h (by simp)
    | ok b =>
      rw [hf] at h
      cases hm : QuizManager.mapProcessQuestion t with
      | error msg => rw [hm] at h; exact absurd h (by simp)
      | ok bs =>
        rw [hm] at h
        simp only [Except.ok.injEq] at h
        subst h
        obtain ⟨hlen, hall⟩ := ih bs hm
        refine ⟨by simp [hlen], ?_⟩
        intro x hx
        rcases List.mem_cons.mp hx with hx | hx
        · exact ⟨b, hx ▸ hf⟩
        · exact hall x hx

theorem mapProcessQuestion_err (elems : List Json) (e : Json)
    (he : e ∈ elems) (msg0 : String)
    (hf : QuizManager.processQuestion e = .error msg0) :
    ∃ msg, QuizManager.mapProcessQuestion elems = .error msg := by
  induction elems with
  | nil => cases he
  | cons a t ih =>
    rw [QuizManager.mapProcessQuestion]
    rcases List.mem_cons.mp he with he0 | he0
    · subst he0
      rw [hf]
      exact ⟨msg0, rfl⟩
    · cases hfa : QuizManager.processQuestion a with
      | error m => exact ⟨m, rfl⟩
      | ok b =>
        obtain ⟨m, hm⟩ := ih he0
        rw [hm]
        exact ⟨m, rfl⟩

/-- C4: after a successful parse the batch validation requires a non-empty
array whose every element (compact or full keys) has a truthy question, an
array of options, and a numeric correct answer with `0 ≤ ans < options.length`
— a successful run implies all of it, and one invalid element (or an empty or
non-array value) makes the whole call raise, so no partial list is ever
produced. -/
theorem processQuestions_validation (j : Json)
    (l : List QuizManager.TestQuestion) (elems : List Json) (e : Json) :
    (QuizManager.processQuestions j = .ok l →
      ∃ es, j = .arr es ∧ es ≠ [] ∧ l.length = es.length ∧
        ∀ x ∈ es, elemClaimValid x = true) ∧
    (j = .arr elems → e ∈ elems → elemClaimValid e = false →
      ∃ msg, QuizManager.processQuestions j = .error msg) ∧
    (QuizManager.processQuestions (.arr []) =
      .error "Unable to parse valid question list from AI response. Please try again.") ∧
    (∀ b n s fields, QuizManager.processQuestions (.bool b) ≠ .ok l ∧
      QuizManager.processQuestions (.num n) ≠ .ok l ∧
      QuizManager.processQuestions (.str s) ≠ .ok l ∧
      QuizManager.processQuestions (.obj fields) ≠ .ok l ∧
      QuizManager.processQuestions .null ≠ .ok l) := by
  refine ⟨?_, ?_, by rfl, by intro b n s fields; refine ⟨by simp [QuizManager.processQuestions], by simp [QuizManager.processQuestions], by simp [QuizManager.processQuestions], by simp [QuizManager.processQuestions], by simp [QuizManager.processQuestions]⟩⟩
  · intro h
    cases j with
    | arr es =>
      refine ⟨es, rfl, ?_, ?_⟩
      · intro hnil
        subst hnil
        exact absurd h (by simp [QuizManager.processQuestions])
      · rw [QuizManager.processQuestions] at h
        by_cases hemp : es.isEmpty
        · rw [hemp] at h
          exact absurd h (by simp)
        · rw [Bool.eq_false_iff.mpr hemp] at h
          simp only [Bool.false_eq_true, if_false] at h
          obtain ⟨hlen, hall⟩ := mapProcessQuestion_ok es l h
          refine ⟨hlen, fun x hx => ?_⟩
          obtain ⟨b, hb⟩ := hall x hx
          exact processQuestion_ok_valid x b hb
    | null => exact absurd h (by simp [QuizManager.processQuestions])
    | bool b => exact absurd h (by simp [QuizManager.processQuestions])
    | num n => exact absurd h (by simp [QuizManager.processQuestions])
    | str s => exact absurd h (by simp [QuizManager.processQuestions])
    | obj fields => exact absurd h (by simp [QuizManager.processQuestions])
  · intro hj he hinv
    subst hj
    obtain ⟨msg0, hmsg⟩ := processQuestion_err_of_invalid e hinv
    obtain ⟨msg, hm⟩ := mapProcessQuestion_err elems e he msg0 hmsg
    rw [QuizManager.processQuestions]
    by_cases hemp : elems.isEmpty
    · rw [hemp]
      exact ⟨_, rfl⟩
    · rw [Bool.eq_false_iff.mpr hemp]
      simp only [Bool.false_eq_true, if_false]
      exact ⟨msg, hm⟩

/-- C4 witness: the good compact-format fixture passes validation whole, and
a batch containing one element with an out-of-range answer raises with no
partial list. -/
theorem processQuestions_validation_witness :
    (∃ es, Json.arr [sampleGoodQuestion] = Json.arr es ∧ es ≠ [] ∧
      ([⟨"2+2?", ["3", "4"], 1, some "math"⟩] :
        List QuizManager.TestQuestion).length = es.length ∧
      ∀ x ∈ es, elemClaimValid x = true) ∧
    (∃ msg, QuizManager.processQuestions
      (.arr [sampleGoodQuestion, sampleBadQuestion]) = .error msg) := by
  constructor
  · exact (processQuestions_validation (.arr [sampleGoodQuestion])
      [⟨"2+2?", ["3", "4"], 1, some "math"⟩] [] Json.null).1 (by rfl)
  · exact (processQuestions_validation (.arr [sampleGoodQuestion, sampleBadQuestion])
      [] [sampleGoodQuestion, sampleBadQuestion] sampleBadQuestion).2.1
      rfl (by simp [sampleGoodQuestion, sampleBadQuestion]) (by rfl)

/-! ## C3: balanced-slice extraction with escape fallback -/

theorem bracketDepth_cons (c : Char) (cs : List Char) :
    bracketDepth (c :: cs) = charDelta c + bracketDepth cs := by
  unfold bracketDepth charDelta
  rcases eq_or_ne c '[' with h1 | h1
  · subst h1
    simp [List.count_cons]
    ring
  · rcases eq_or_ne c ']' with h2 | h2
    · subst h2
      simp [List.count_cons]
      ring
    · simp [List.count_cons, h1, h2]

theorem closingAt_zero (c : Char) (rest : List Char) (d : Int) :
    closingAt (c :: rest) d 0 ↔ (c = ']' ∧ d - 1 = 0) := by
  unfold closingAt
  have h1 : (c :: rest).get? 0 = some c := rfl
  have h2 : (c :: rest).take 1 = [c] := rfl
  have h3 : bracketDepth [c] = charDelta c := by
    have := bracketDepth_cons c []
    simpa [bracketDepth] using this
  rw [h1, h2, h3]
  constructor
  · rintro ⟨hc, hd⟩
    have hc2 : c = ']' := Option.some.inj hc
    subst hc2
    have hv : charDelta ']' = -1 := by decide
    rw [hv] at hd
    exact ⟨rfl, by omega⟩
  · rintro ⟨hc, hd⟩
    subst hc
    have hv : charDelta ']' = -1 := by decide
    rw [hv]
    exact ⟨rfl, by omega⟩

theorem closingAt_succ (c : Char) (rest : List Char) (d : Int) (k : Nat) :
    closingAt (c :: rest) d (k + 1) ↔ closingAt rest (d + charDelta c) k := by
  unfold closingAt
  have h1 : (c :: rest).get? (k + 1) = rest.get? k := rfl
  have h2 : (c :: rest).take (k + 1 + 1) = c :: rest.take (k + 1) := rfl
  rw [h1, h2, bracketDepth_cons]
  constructor
  · rintro ⟨ha, hb⟩
    exact ⟨ha, by omega⟩
  · rintro ⟨ha, hb⟩
    exact ⟨ha, by omega⟩

theorem findClosing_cons (c : Char) (rest : List Char) (d : Int) :
    QuizManager.findClosing (c :: rest) d =
      if c = ']' ∧ d - 1 = 0 then some 0
      else (QuizManager.findClosing rest (d + charDelta c)).map (· + 1) := by
  conv_lhs => rw [QuizManager.findClosing]
  unfold charDelta
  rcases eq_or_ne c '[' with h1 | h1
  · subst h1
    simp
  · rcases eq_or_ne c ']' with h2 | h2
    · subst h2
      by_cases hd : d - 1 = 0 <;> simp [hd, sub_eq_add_neg]
    · simp [h1, h2]

theorem findClosing_spec (cs : List Char) (d : Int) :
    (∀ n, QuizManager.findClosing cs d = some n ↔
      (closingAt cs d n ∧ ∀ m < n, ¬ closingAt cs d m)) ∧
    (QuizManager.findClosing cs d = none ↔ ∀ n, ¬ closingAt cs d n) := by
  induction cs generalizing d with
  | nil =>
    constructor
    · intro n
      simp [QuizManager.findClosing, closingAt]
    · simp [QuizManager.findClosing, closingAt]
  | cons c rest ih =>
    by_cases h : c = ']' ∧ d - 1 = 0
    · rw [findClosing_cons, if_pos h] at *
      have hc0 : closingAt (c :: rest) d 0 := (closingAt_zero c rest d).mpr h
      constructor
      · intro n
        cases n with
        | zero =>
          constructor
          · intro _
            exact ⟨hc0, by intro m hm; omega⟩
          · intro _
            rfl
        | succ k =>
          constructor
          · intro hsome
            exact absurd hsome (by simp)
          · rintro ⟨_, hmin⟩
            exact absurd hc0 (hmin 0 (by omega))
      · constructor
        · intro hnone
          exact absurd hnone (by simp)
        · intro hall
          exact absurd hc0 (hall 0)
    · have hz : ¬ closingAt (c :: rest) d 0 := by
        rw [closingAt_zero]
        exact h
      rw [findClosing_cons, if_neg h]
      constructor
      · intro n
        cases n with
        | zero =>
          constructor
          · intro hsome
            rcases Option.map_eq_some'.mp hsome with ⟨a, _, hb⟩
            omega
          · rintro ⟨hc0, _⟩
            exact absurd hc0 hz
        | succ k =>
          rw [Option.map_eq_some']
          constructor
          · rintro ⟨a, ha, hb⟩
            have hak : a = k := by omega
            subst hak
            obtain ⟨hcl, hmin⟩ := ((ih (d + charDelta c)).1 a).mp ha
            refine ⟨(closingAt_succ c rest d a).mpr hcl, ?_⟩
            intro m hm
            cases m with
            | zero => exact hz
            | succ m0 =>
              rw [closingAt_succ]
              exact hmin m0 (by omega)
          · rintro ⟨hcl, hmin⟩
            refine ⟨k, ?_, rfl⟩
            apply ((ih (d + charDelta c)).1 k).mpr
            refine ⟨(closingAt_succ c rest d k).mp hcl, ?_⟩
            intro m hm hcm
            exact (hmin (m + 1) (by omega)) ((closingAt_succ c rest d m).mpr hcm)
      · rw [Option.map_eq_none', (ih (d + charDelta c)).2]
        constructor
        · intro hall n
          cases n with
          | zero => exact hz
          | succ k =>
            rw [closingAt_succ]
            exact hall k
        · intro hall k hck
          exact (hall (k + 1)) ((closingAt_succ c rest d k).mpr hck)

/-- C3: structured extraction fails when the text has no open bracket; from
the first open bracket it walks counting depth (+1 at open, -1 at close) and
fails iff the depth never returns to zero; the close position is the least
index where the inclusive prefix depth is zero; on success it parses the
backslash-doubled inclusive slice first, falls back to the raw slice, and
raises the extraction error only when both parses fail. -/
theorem extractQuestionsJson_spec (parse : String → Option Json) (text : String) :
    ((∀ c ∈ text.data, c ≠ '[') →
      QuizManager.extractQuestionsJson parse text =
        .error "No valid JSON array found in AI response") ∧
    (∀ openPos, text.data.findIdx? (fun c => c == '[') = some openPos →
      ((QuizManager.findClosing (text.data.drop openPos) 0 = none ↔
        ∀ n, ¬ closingAt (text.data.drop openPos) 0 n) ∧
       (∀ n, QuizManager.findClosing (text.data.drop openPos) 0 = some n ↔
        (closingAt (text.data.drop openPos) 0 n ∧
         ∀ m < n, ¬ closingAt (text.data.drop openPos) 0 m)) ∧
       (QuizManager.findClosing (text.data.drop openPos) 0 = none →
        QuizManager.extractQuestionsJson parse text =
          .error "No valid JSON array found in AI response") ∧
       (∀ off, QuizManager.findClosing (text.data.drop openPos) 0 = some off →
        ((∀ q, parse (QuizManager.escapeBackslashes
            (String.mk ((text.data.drop openPos).take (off + 1)))) = some q →
          QuizManager.extractQuestionsJson parse text = .ok q) ∧
         (∀ q, parse (QuizManager.escapeBackslashes
            (String.mk ((text.data.drop openPos).take (off + 1)))) = none →
          parse (String.mk ((text.data.drop openPos).take (off + 1))) = some q →
          QuizManager.extractQuestionsJson parse text = .ok q) ∧
         (parse (QuizManager.escapeBackslashes
            (String.mk ((text.data.drop openPos).take (off + 1)))) = none →
          parse (String.mk ((text.data.drop openPos).take (off + 1))) = none →
          QuizManager.extractQuestionsJson parse text =
            .error "Unable to parse valid question list from AI response. Please try again."))))) := by
  constructor
  · intro h
    have hidx : text.data.findIdx? (fun c => c == '[') = none := by
      rw [List.findIdx?_eq_none_iff]
      intro x hx
      simpa using h x hx
    rw [QuizManager.extractQuestionsJson, hidx]
  · intro openPos hidx
    refine ⟨(findClosing_spec (text.data.drop openPos) 0).2,
      (findClosing_spec (text.data.drop openPos) 0).1, ?_, ?_⟩
    · intro hnone
      rw [QuizManager.extractQuestionsJson, hidx]
      simp only [hnone]
    · intro off hoff
      refine ⟨?_, ?_, ?_⟩
      · intro q hp
        rw [QuizManager.extractQuestionsJson, hidx]
        simp only [hoff, hp]
      · intro q hp1 hp2
        rw [QuizManager.extractQuestionsJson, hidx]
        simp only [hoff, hp1, hp2]
      · intro hp1 hp2
        rw [QuizManager.extractQuestionsJson, hidx]
        simp only [hoff, hp1, hp2]

/-- C3 witness: on concrete texts, extraction ignores surrounding prose and
parses the balanced slice (escaped first), fails without any open bracket,
and fails on an unbalanced walk. -/
theorem extractQuestionsJson_spec_witness :
    QuizManager.extractQuestionsJson sampleArrayParse "xx[a[b]]yy" =
      .ok (.arr [.num 7]) ∧
    QuizManager.extractQuestionsJson sampleArrayParse "no array here" =
      .error "No valid JSON array found in AI response" ∧
    QuizManager.findClosing "[a[b]".data 0 = none := by
  have h1 := ((extractQuestionsJson_spec sampleArrayParse "xx[a[b]]yy").2 2
    (by rfl)).2.2.2 5 (by rfl)
  refine ⟨?_, ?_, by rfl⟩
  · have hesc : QuizManager.escapeBackslashes
        (String.mk (("xx[a[b]]yy".data.drop 2).take 6)) = "[a[b]]" := by rfl
    apply h1.1 (.arr [.num 7])
    rw [hesc]
    rfl
  · exact (extractQuestionsJson_spec sampleArrayParse "no array here").1
      (by decide)

/-! ## C8: stopping a chat stream keeps the partial assistant message -/

theorem filter_ne_id (x : String) (ms : List QuizManager.ChatMessage)
    (h : ∀ m ∈ ms, m.id ≠ x) :
    ms.filter (fun m => m.id != x) = ms := by
  rw [List.filter_eq_self]
  intro m hm
  simpa using h m hm

theorem updateContent_append_single (aId : String) (f : String → String)
    (ms : List QuizManager.ChatMessage) (r c : String)
    (h : ∀ m ∈ ms, m.id ≠ aId) :
    QuizManager.updateContent aId f (ms ++ [⟨aId, r, c⟩]) =
      ms ++ [⟨aId, r, f c⟩] := by
  unfold QuizManager.updateContent
  rw [List.map_append]
  congr 1
  · conv_rhs => rw [← List.map_id ms]
    apply List.map_congr_left
    intro m hm
    rw [if_neg (h m hm)]
    rfl
  · simp

theorem chat_fold_notFirst (aId : String) (chunks : List String)
    (ms0 : List QuizManager.ChatMessage) (r cont : String)
    (h : ∀ m ∈ ms0, m.id ≠ aId) :
    chunks.foldl (QuizManager.chatOnChunk aId) (ms0 ++ [⟨aId, r, cont⟩], false) =
      (ms0 ++ [⟨aId, r, cont ++ String.join chunks⟩], false) := by
  induction chunks generalizing cont with
  | nil =>
    simp [String.join, String.append_empty]
  | cons c rest ih =>
    rw [List.foldl_cons]
    have hstep : QuizManager.chatOnChunk aId (ms0 ++ [⟨aId, r, cont⟩], false) c =
        (ms0 ++ [⟨aId, r, cont ++ c⟩], false) := by
      unfold QuizManager.chatOnChunk
      simp only [Bool.false_eq_true, if_false]
      rw [updateContent_append_single aId _ ms0 r cont h]
    rw [hstep, ih, strJoin_cons, String.append_assoc]

/-- C8 counterexample: on the OpenAI/DeepSeek path the Stop action aborts the
signal-wired fetch, so the cancelled `streamAI` run rejects after delivering
its chunks, and the chat controller's catch branch removes the partially
accumulated assistant message and pushes the error notice — the partial
message is discarded and replaced, contradicting the claim. -/
theorem chat_stop_sse_discards_partial_cex :
    (AIService.streamAI sampleParse (some 2) [sampleChunk1, sampleChunk2]).rejected =
      true ∧
    (AIService.streamAI sampleParse (some 2) [sampleChunk1, sampleChunk2]).emitted =
      ["Hel", "lo"] ∧
    (QuizManager.generateChatResponse [⟨"u1", "user", "hi"⟩] "a1" "e1"
      (AIService.streamAI sampleParse (some 2) [sampleChunk1, sampleChunk2]).emitted
      (.error ())).1 =
      [⟨"u1", "user", "hi"⟩, ⟨"e1", "assistant", QuizManager.chatErrorText⟩] := by
  refine ⟨rfl, rfl, rfl⟩

/-- C8 amended: the partial assistant message survives a Stop only when the
stream resolves normally, which cancellation produces only on the Gemini SDK
path (not signal-wired, graceful break): there the partially accumulated
assistant message is kept with exactly the delivered chunks, no error message
is added, the streaming flag is cleared, and a stop before any chunk leaves
the list unchanged. On the OpenAI/DeepSeek paths the abort rejects the
`streamAI` promise and the catch branch removes the partial assistant message,
replacing it with the error notice. -/
theorem chat_stop_keeps_partial (gchunks : List Json) (j : Nat)
    (messages0 : List QuizManager.ChatMessage) (aId eId : String)
    (st : AIService.StreamAcc)
    (hst : st = AIService.streamGeminiWithFiles (some j) gchunks)
    (hA : ∀ m ∈ messages0, m.id ≠ aId)
    (hT : ∀ m ∈ messages0, m.id ≠ "typing")
    (hE : ∀ m ∈ messages0, m.id ≠ eId)
    (hAT : aId ≠ "typing") (hEA : eId ≠ aId) (hET : eId ≠ "typing") :
    (QuizManager.generateChatResponse messages0 aId eId st.emitted
      (.ok st.fullResponse)).2 = false ∧
    (st.emitted ≠ [] →
      (QuizManager.generateChatResponse messages0 aId eId st.emitted
        (.ok st.fullResponse)).1 =
        messages0 ++ [⟨aId, "assistant", st.fullResponse⟩]) ∧
    (st.emitted = [] →
      (QuizManager.generateChatResponse messages0 aId eId st.emitted
        (.ok st.fullResponse)).1 = messages0) ∧
    (∀ m ∈ (QuizManager.generateChatResponse messages0 aId eId st.emitted
        (.ok st.fullResponse)).1, m.id ≠ eId) ∧
    (∀ sseChunks : List String,
      (QuizManager.generateChatResponse messages0 aId eId sseChunks
        (.error ())).1 =
        messages0 ++ [⟨eId, "assistant", QuizManager.chatErrorText⟩]) := by
  have hfull : st.fullResponse = String.join st.emitted := by
    rw [hst]
    have h1 : AIService.streamGeminiWithFiles (some j) gchunks =
        AIService.streamGeminiWithFiles none (gchunks.take j) := by
      unfold AIService.streamGeminiWithFiles
      rw [geminiLoop_abort, Nat.sub_zero]
    rw [h1]
    unfold AIService.streamGeminiWithFiles
    rw [geminiLoop_none, foldl_processGeminiChunk]
    simp [String.empty_append]
  clear hst
  have hfiltT : messages0.filter (fun m => m.id != "typing") = messages0 :=
    filter_ne_id _ _ hT
  have htyT : [QuizManager.typingMessage].filter (fun m => m.id != "typing") = [] := by
    decide
  have hstep1 : ∀ c, QuizManager.chatOnChunk aId
      ((messages0.filter (fun m => m.id != "typing")) ++
        [QuizManager.typingMessage], true) c =
      (messages0 ++ [⟨aId, "assistant", c⟩], false) := by
    intro c
    unfold QuizManager.chatOnChunk
    simp only [if_true]
    rw [List.filter_append, hfiltT, filter_ne_id _ _ hT]
    rw [htyT, List.append_nil]
    rw [updateContent_append_single aId _ messages0 "assistant" "" hA]
    rw [String.empty_append]
  have hmain : ∀ out1, out1 = (QuizManager.generateChatResponse messages0 aId eId
      st.emitted (.ok st.fullResponse)) →
      (out1.2 = false ∧
       (st.emitted ≠ [] → out1.1 = messages0 ++ [⟨aId, "assistant", st.fullResponse⟩]) ∧
       (st.emitted = [] → out1.1 = messages0)) := by
    intro out1 hout
    unfold QuizManager.generateChatResponse at hout
    cases hemit : st.emitted with
    | nil =>
      rw [hemit] at hout
      have hF : st.fullResponse = "" := by
        rw [hfull, hemit]
        rfl
      rw [hF] at hout
      simp only [List.foldl_nil, bne_self_eq_false, Bool.false_eq_true,
        if_false, if_true] at hout
      subst hout
      refine ⟨rfl, by simp, fun _ => ?_⟩
      rw [hfiltT, List.filter_append, filter_ne_id _ _ hT]
      rw [htyT, List.append_nil]
    | cons c rest =>
      rw [hemit] at hout
      simp only [List.foldl_cons] at hout
      rw [hstep1 c,
        chat_fold_notFirst aId rest messages0 "assistant" c hA] at hout
      have hjoin : c ++ String.join rest = st.fullResponse := by
        rw [hfull, hemit, strJoin_cons]
      rw [hjoin] at hout
      simp only [Bool.false_eq_true, if_false] at hout
      rw [updateContent_append_single aId _ messages0 "assistant"
        st.fullResponse hA] at hout
      have hval : (if (st.fullResponse != "") = true then st.fullResponse
          else st.fullResponse) = st.fullResponse := by
        split <;> rfl
      rw [hval] at hout
      rw [List.filter_append, filter_ne_id _ _ hT] at hout
      have hty2 : [(⟨aId, "assistant", st.fullResponse⟩ :
          QuizManager.ChatMessage)].filter (fun m => m.id != "typing") =
          [⟨aId, "assistant", st.fullResponse⟩] := by
        simp [hAT]
      rw [hty2] at hout
      subst hout
      exact ⟨rfl, fun _ => rfl, by simp⟩
  have herr : ∀ cs : List String,
      (QuizManager.generateChatResponse messages0 aId eId cs (.error ())).1 =
        messages0 ++ [⟨eId, "assistant", QuizManager.chatErrorText⟩] := by
    have htyA : [QuizManager.typingMessage].filter (fun m => m.id != aId) =
        [QuizManager.typingMessage] := by
      simp [QuizManager.typingMessage, Ne.symm hAT]
    have herrT : [(⟨eId, "assistant", QuizManager.chatErrorText⟩ :
        QuizManager.ChatMessage)].filter (fun m => m.id != "typing") =
        [⟨eId, "assistant", QuizManager.chatErrorText⟩] := by
      simp [hET]
    intro cs
    cases cs with
    | nil =>
      unfold QuizManager.generateChatResponse
      simp only [List.foldl_nil]
      rw [hfiltT]
      simp only [List.filter_append]
      rw [filter_ne_id _ _ hA, htyA, hfiltT, htyT, herrT]
      simp
    | cons c rest =>
      unfold QuizManager.generateChatResponse
      simp only [List.foldl_cons]
      rw [hstep1 c,
        chat_fold_notFirst aId rest messages0 "assistant" c hA]
      simp only
      have hasstA : [(⟨aId, "assistant", c ++ String.join rest⟩ :
          QuizManager.ChatMessage)].filter (fun m => m.id != aId) = [] := by
        simp
      simp only [List.filter_append]
      rw [filter_ne_id _ _ hA, hasstA, hfiltT, herrT]
      simp
  obtain ⟨h2, hne, hnil⟩ := hmain _ rfl
  refine ⟨h2, hne, hnil, ?_, herr⟩
  intro m hm
  cases hemit : st.emitted with
  | nil =>
    rw [hnil hemit] at hm
    exact hE m hm
  | cons c rest =>
    rw [hne (by rw [hemit]; simp)] at hm
    rcases List.mem_append.mp hm with hm | hm
    · exact hE m hm
    · rcases List.mem_singleton.mp hm with rfl
      exact Ne.symm hEA

/-- C8 witness: stopping a Gemini stream after one chunk keeps that chunk as
the assistant message after the user message with no error notice, while the
rejected SSE outcome replaces the partial message with the error notice. -/
theorem chat_stop_keeps_partial_witness :
    (QuizManager.generateChatResponse [⟨"u1", "user", "hi"⟩] "a1" "e1"
      (AIService.streamGeminiWithFiles (some 1)
        [mkGeminiResponse [["Hel"]], mkGeminiResponse [["lo"]]]).emitted
      (.ok (AIService.streamGeminiWithFiles (some 1)
        [mkGeminiResponse [["Hel"]], mkGeminiResponse [["lo"]]]).fullResponse)).1 =
      [⟨"u1", "user", "hi"⟩, ⟨"a1", "assistant", "Hel"⟩] ∧
    (QuizManager.generateChatResponse [⟨"u1", "user", "hi"⟩] "a1" "e1"
      ["Hel", "lo"] (.error ())).1 =
      [⟨"u1", "user", "hi"⟩, ⟨"e1", "assistant", QuizManager.chatErrorText⟩] := by
  have h := chat_stop_keeps_partial
    [mkGeminiResponse [["Hel"]], mkGeminiResponse [["lo"]]] 1
    [⟨"u1", "user", "hi"⟩] "a1" "e1" _ rfl (by decide) (by decide) (by decide)
    (by decide) (by decide) (by decide)
  refine ⟨?_, h.2.2.2.2 ["Hel", "lo"]⟩
  rw [h.2.1 (by decide)]
  rfl

/-! ## C9: math-delimiter normalization -/

theorem globalWrapFuel_id (b : Bool) (toks : List MathUtils.RTok)
    (cs : List Char) :
    ∀ (fuel : Nat) (prev : Option Char), cs.length ≤ fuel →
    hasMatchFrom b toks prev cs = false →
    MathUtils.globalWrapFuel b toks fuel prev cs = cs := by
  induction cs with
  | nil =>
    intro fuel prev _ _
    cases fuel <;> rfl
  | cons c cs ih =>
    intro fuel prev hlen hmatch
    cases fuel with
    | zero => exact absurd hlen (by simp)
    | succ f =>
      rw [hasMatchFrom] at hmatch
      rw [Bool.or_eq_false_iff] at hmatch
      obtain ⟨h1, h2⟩ := hmatch
      rw [MathUtils.globalWrapFuel]
      cases hatt : (if b && !(MathUtils.boundaryOk prev) then none
          else MathUtils.matchToks toks (c :: cs)) with
      | none =>
        have hrest : MathUtils.globalWrapFuel b toks f (some c) cs = cs :=
          ih f (some c) (by simpa using hlen) h2
        simp [hrest]
      | some n =>
        cases n with
        | zero =>
          have hrest : MathUtils.globalWrapFuel b toks f (some c) cs = cs :=
            ih f (some c) (by simpa using hlen) h2
          simp [hrest]
        | succ n0 =>
          rw [hatt] at h1
          simp at h1

theorem globalWrap_id (b : Bool) (toks : List MathUtils.RTok) (cs : List Char)
    (h : hasMatchFrom b toks none cs = false) :
    MathUtils.globalWrap b toks none cs = cs :=
  globalWrapFuel_id b toks cs cs.length none (Nat.le_refl _) h

theorem applyPatterns_id (ps : List (Bool × List MathUtils.RTok)) (text : String)
    (h : ∀ p ∈ ps, hasMatchFrom p.1 p.2 none text.data = false) :
    ps.foldl (fun t pat =>
      String.mk (MathUtils.globalWrap pat.1 pat.2 none t.data)) text = text := by
  induction ps with
  | nil => rfl
  | cons p rest ih =>
    rw [List.foldl_cons]
    have hid : String.mk (MathUtils.globalWrap p.1 p.2 none text.data) = text := by
      rw [globalWrap_id p.1 p.2 text.data (h p (List.mem_cons_self p rest))]
    rw [hid]
    exact ih (fun q hq => h q (List.mem_cons_of_mem p hq))

/-- C9: `ensureMathDelimiters` is the identity whenever the text already
contains a dollar character; on dollar-free text containing a block-math
environment it returns the text wrapped in double dollars; otherwise it is
the sequential heuristic-pattern wrapping pass (each non-overlapping match of
the patterns, scanned in source order, wrapped in single dollars), which
leaves any text without a single pattern match unchanged. -/
theorem ensureMathDelimiters_spec (text : String) :
    (text.data.contains '$' = true → MathUtils.ensureMathDelimiters text = text) ∧
    (text.data.contains '$' = false → MathUtils.needsBlockMath text = true →
      MathUtils.ensureMathDelimiters text = "$$" ++ text ++ "$$") ∧
    (text.data.contains '$' = false → MathUtils.needsBlockMath text = false →
      MathUtils.ensureMathDelimiters text = MathUtils.applyMathPatterns text) ∧
    (text.data.contains '$' = false → MathUtils.needsBlockMath text = false →
      noPatternMatches text = true →
      MathUtils.ensureMathDelimiters text = text) := by
  have hpat : ∀ h3 : noPatternMatches text = true,
      MathUtils.applyMathPatterns text = text := by
    intro h3
    unfold noPatternMatches at h3
    rw [List.all_eq_true] at h3
    apply applyPatterns_id
    intro p hp
    have := h3 p hp
    simpa using this
  by_cases hempty : text = ""
  · subst hempty
    refine ⟨?_, ?_, ?_, ?_⟩
    · intro h
      simp at h
    · intro _ h2
      exact absurd h2 (by decide)
    · intro _ _
      rfl
    · intro _ _ _
      rfl
  · refine ⟨?_, ?_, ?_, ?_⟩
    · intro h1
      unfold MathUtils.ensureMathDelimiters
      rw [if_neg hempty, if_pos h1]
    · intro h1 h2
      unfold MathUtils.ensureMathDelimiters
      rw [if_neg hempty, if_neg (by simpa using h1), if_pos h2]
    · intro h1 h2
      unfold MathUtils.ensureMathDelimiters
      rw [if_neg hempty, if_neg (by simpa using h1), if_neg (by simp [h2])]
    · intro h1 h2 h3
      unfold MathUtils.ensureMathDelimiters
      rw [if_neg hempty, if_neg (by simpa using h1), if_neg (by simp [h2])]
      exact hpat h3

/-- C9 witness: a text with a dollar is untouched; a dollar-free matrix text
is block-wrapped; plain prose without any math pattern is unchanged; and the
pattern pass wraps a detected superscript in single dollars. -/
theorem ensureMathDelimiters_spec_witness :
    MathUtils.ensureMathDelimiters "a$b" = "a$b" ∧
    MathUtils.ensureMathDelimiters "\\begin\x7bpmatrix\x7d1\\end\x7bpmatrix\x7d" =
      "$$" ++ "\\begin\x7bpmatrix\x7d1\\end\x7bpmatrix\x7d" ++ "$$" ∧
    MathUtils.ensureMathDelimiters "hello world" = "hello world" ∧
    MathUtils.ensureMathDelimiters "the value x^2 grows" =
      "the value $x^2$ grows" := by
  refine ⟨(ensureMathDelimiters_spec "a$b").1 (by decide),
    (ensureMathDelimiters_spec
      "\\begin\x7bpmatrix\x7d1\\end\x7bpmatrix\x7d").2.1 (by decide) (by decide),
    (ensureMathDelimiters_spec "hello world").2.2.2 (by decide) (by decide)
      (by decide),
    ?_⟩
  rw [(ensureMathDelimiters_spec "the value x^2 grows").2.2.1 (by decide)
    (by decide)]
  rfl

end LjoveTools
